import Mathlib

/-!
Verification development for the `process-in-chunks` library.

The repository ships two revisions of the same engine:
* the newer revision (`processInChunks` / `processInChunksByChunk` with a
  `noThrow` option), modelled in namespace `New`;
* the older revision (no `noThrow` option, failures are always collected into a
  structured result), modelled in namespace `Old`.

Modelling conventions for the shallow embedding:
* A unit callback is a function `T → Nat → Except String R`; `Except.error e`
  models a rejected promise whose failure value the `getErrorMessage` utility
  maps to the string `e` (the utility is a total, deterministic extractor, so we
  let callbacks carry the extracted message directly).
* Promise settlement order within a chunk is modelled as item order, the
  deterministic order in which the promises are created by `items.map`; the
  first rejection observed by `Promise.all` is therefore the first failing item
  in item order.
* Each entry point is embedded together with an invocation trace: the list of
  `(index, unit)` arguments actually passed to the user callback, in invocation
  order.  The trace instruments exactly the call sites of `processFn`.
* `waitSeconds` never fails and only affects wall-clock timing; its value-level
  effect is nil, and its temporal effect is modelled separately by
  `iterationAdvance` and `chunkStart` below.
-/

set_option autoImplicit false

/-! ### Options objects and the `Object.assign` merge -/

/-- Options object of the newer revision (`ChunkingOptions` in
`src/process-in-chunks.ts`): all three fields optional.  `none` models an
absent field. -/
structure ChunkingOptions where
  chunkSize : Option Nat
  throttleSeconds : Option ℚ
  noThrow : Option Bool
deriving Repr, DecidableEq

/-- Fully resolved options of the newer revision
(`Required<ChunkingOptions>`). -/
structure ResolvedOptions where
  chunkSize : Nat
  throttleSeconds : ℚ
  noThrow : Bool
deriving Repr, DecidableEq

/-- Source: `optionsDefaults = { chunkSize: 500, throttleSeconds: 0,
noThrow: false }` of the newer revision. -/
def optionsDefaults : ResolvedOptions :=
  { chunkSize := 500, throttleSeconds := 0, noThrow := false }

/-- The defaults viewed as an options object with every field present. -/
def optionsDefaultsObject : ChunkingOptions :=
  { chunkSize := some optionsDefaults.chunkSize
    throttleSeconds := some optionsDefaults.throttleSeconds
    noThrow := some optionsDefaults.noThrow }

/-- The fresh empty object literal `{}` used as the `Object.assign` target. -/
def emptyOptions : ChunkingOptions :=
  { chunkSize := none, throttleSeconds := none, noThrow := none }

/-- One field of a JS `Object.assign` step: a present field of the source
overwrites the target's field, an absent one leaves it alone. -/
def assignField {α : Type} (tgt src : Option α) : Option α :=
  match src with
  | none => tgt
  | some v => some v

/-- JS `Object.assign(target, src)` on options objects, returning the (mutated)
target's new contents.  Only the target is ever written; sources are
read-only. -/
def objectAssign (tgt src : ChunkingOptions) : ChunkingOptions :=
  { chunkSize := assignField tgt.chunkSize src.chunkSize
    throttleSeconds := assignField tgt.throttleSeconds src.throttleSeconds
    noThrow := assignField tgt.noThrow src.noThrow }

/-- Source: `Object.assign({}, optionsDefaults, options)` — the target of the
merge is the fresh empty object, never the caller's `options`. -/
def mergedOptions (options : ChunkingOptions) : ChunkingOptions :=
  objectAssign (objectAssign emptyOptions optionsDefaultsObject) options

/-- Contents of the caller's `options` object after either entry point returns:
the body's only statement involving `options` is
`Object.assign({}, optionsDefaults, options)`, which reads `options` and writes
the fresh target, so threading the object through the call as explicit state
leaves it unchanged. -/
def optionsAfterCall (options : ChunkingOptions) : ChunkingOptions := options

/-- Destructuring `const { chunkSize, throttleSeconds, noThrow } = ...` of the
merged object.  The defaults are all present, so the `getD` fallbacks are never
exercised. -/
def resolveOptions (options : ChunkingOptions) : ResolvedOptions :=
  { chunkSize := (mergedOptions options).chunkSize.getD optionsDefaults.chunkSize
    throttleSeconds :=
      (mergedOptions options).throttleSeconds.getD optionsDefaults.throttleSeconds
    noThrow := (mergedOptions options).noThrow.getD optionsDefaults.noThrow }

/-! ### The chunk partitioner -/

/-- Modelled from the spec: the array-splitting helper `chunk` is imported from
`./utils` and its implementation is not under `src/`.  Spec §4.1 fixes its
contract: an ordered partition of the input into contiguous pieces of length
`chunkSize` (the last piece may be shorter), with a malformed `chunkSize`
coerced to at least 1, and the empty input yielding zero chunks. -/
def chunk {T : Type} (items : List T) (size : Nat) : List (List T) :=
  match items with
  | [] => []
  | x :: xs =>
      (x :: xs).take (max size 1) :: chunk ((x :: xs).drop (max size 1)) size
termination_by items.length
decreasing_by
  simp only [List.length_drop]
  have h1 : 1 ≤ max size 1 := le_max_right size 1
  simp only [List.length_cons]
  omega

/-! ### Per-chunk helpers shared by both revisions

The newer and the older revision both build, per chunk, the list of item
promises with `items.map(async (v, idx) => ...)`, offset by the running
`overallIndex`.  The following structural recursions embed that indexed map:
`chunkSlots` gives the settled result slot of each item, `chunkErrList` the
failure messages in item order, `chunkItemCalls` the `(index, item)` arguments
passed to the callback, and `firstFailure` the relative index and message of
the first rejection observed by `Promise.all`. -/

/-- Result slot written for one settled unit: the value on success, `undefined`
(i.e. `none`) on failure. -/
def slotOf {R : Type} : Except String R → Option R
  | Except.ok r => some r
  | Except.error _ => none

/-- Failure message of one settled unit, if any. -/
def errOf {R : Type} : Except String R → Option String
  | Except.ok _ => none
  | Except.error e => some e

/-- Settled result slots of a chunk's items, with global indices starting at
`base`. -/
def chunkSlots {T R : Type} (f : T → Nat → Except String R) (base : Nat) :
    List T → List (Option R)
  | [] => []
  | v :: vs => slotOf (f v base) :: chunkSlots f (base + 1) vs

/-- Failure messages of a chunk's items in item order, with global indices
starting at `base`. -/
def chunkErrList {T R : Type} (f : T → Nat → Except String R) (base : Nat) :
    List T → List String
  | [] => []
  | v :: vs =>
      match f v base with
      | Except.ok _ => chunkErrList f (base + 1) vs
      | Except.error e => e :: chunkErrList f (base + 1) vs

/-- Arguments `(globalIndex, item)` passed to the callback for a chunk's items,
in invocation order. -/
def chunkItemCalls {T : Type} (base : Nat) : List T → List (Nat × T)
  | [] => []
  | v :: vs => (base, v) :: chunkItemCalls (base + 1) vs

/-- Relative index and message of the first failing item of a chunk (the first
rejection `Promise.all` observes in the deterministic settlement order). -/
def firstFailure {T R : Type} (f : T → Nat → Except String R) (base : Nat) :
    List T → Option (Nat × String)
  | [] => none
  | v :: vs =>
      match f v base with
      | Except.error e => some (0, e)
      | Except.ok _ => (firstFailure f (base + 1) vs).map (fun p => (p.1 + 1, p.2))

/-! ### The error-message set -/

/-- `Set.add` on the insertion-ordered error-message set: a string already
present is not added again. -/
def setAdd (s : List String) (m : String) : List String :=
  if m ∈ s then s else s ++ [m]

/-- Adding a whole list of messages to the set, in order. -/
def addAll (s : List String) (ms : List String) : List String :=
  ms.foldl setAdd s

/-- Specification-side deduplication: keep each distinct string once, at its
first occurrence, in first-occurrence order (spec §3: "`errorMessages` holds
each distinct error message string once (deduplicated by string equality), in
first-occurrence order"). -/
def dedupFirst : List String → List String
  | [] => []
  | x :: xs => x :: (dedupFirst xs).filter (fun y => decide (y ≠ x))

/-! ### Result types -/

/-- The `ProcessResult<R>` discriminated union.  The `ok` shape's `results` has
TS type `R[]`, but at runtime it is the same array of slots, so we keep the
slot type and prove separately that no slot is `none` in the `ok` shape. -/
inductive ProcessResult (R : Type) where
  | ok (results : List (Option R))
  | err (results : List (Option R)) (errorMessages : List String)
deriving Repr, DecidableEq

/-- The `hasErrors` tag. -/
def ProcessResult.hasErrors {R : Type} : ProcessResult R → Bool
  | ProcessResult.ok _ => false
  | ProcessResult.err _ _ => true

/-- The `results` field. -/
def ProcessResult.results {R : Type} : ProcessResult R → List (Option R)
  | ProcessResult.ok rs => rs
  | ProcessResult.err rs _ => rs

/-- The `errorMessages` field (`undefined`, i.e. `none`, in the `ok` shape). -/
def ProcessResult.errorMessages {R : Type} : ProcessResult R → Option (List String)
  | ProcessResult.ok _ => none
  | ProcessResult.err _ ms => some ms

/-- Overall outcome of one call of a newer-revision entry point: a rejected
promise carrying a message, a plain `R[]` return (the `noThrow: false`
overload; kept as slots to mirror the runtime no-op cast `results as R[]`), or
a structured `ProcessResult`. -/
inductive CallResult (R : Type) where
  | thrown (msg : String)
  | plain (results : List (Option R))
  | structured (r : ProcessResult R)
deriving Repr, DecidableEq

/-- JS runtime value of a result slot when the callback's result type itself
contains `undefined` (Lean: `R = Option S`): the runtime cannot distinguish a
hole from a successfully returned `undefined`, so both flatten to the same
value. -/
def jsSlot {S : Type} : Option (Option S) → Option S := Option.join

namespace New

/-- Chunk-iteration loop of the newer `processInChunks` (lines 59-89), embedded
over the chunk list with the running `overallIndex`, the error-message set and
the `results` accumulator as explicit state.  Per chunk: all item callbacks are
invoked (the promises are created by `items.map` before anything is awaited);
with `noThrow: false` a failing item's catch rethrows, so `Promise.all` rejects
with the first failure and the set is untouched; with `noThrow: true` every
failure is recorded in the set and leaves an `undefined` slot.  The second
component is the invocation trace. -/
def processChunksLoop {T R : Type} (processFn : T → Nat → Except String R)
    (noThrow : Bool) :
    List (List T) → Nat → List (Option R) → List String →
      Except String (List (Option R) × List String) × List (Nat × T)
  | [], _, results, errs => (Except.ok (results, errs), [])
  | items :: rest, overallIndex, results, errs =>
      match noThrow with
      | false =>
          match firstFailure processFn overallIndex items with
          | some (_, e) =>
              (Except.error e, chunkItemCalls overallIndex items)
          | none =>
              let next := processChunksLoop processFn false rest
                (overallIndex + items.length)
                (results ++ chunkSlots processFn overallIndex items) errs
              (next.1, chunkItemCalls overallIndex items ++ next.2)
      | true =>
          let next := processChunksLoop processFn true rest
            (overallIndex + items.length)
            (results ++ chunkSlots processFn overallIndex items)
            (addAll errs (chunkErrList processFn overallIndex items))
          (next.1, chunkItemCalls overallIndex items ++ next.2)

/-- The newer `processInChunks` (lines 42-110) together with its invocation
trace: resolve options, split into chunks, run the loop from `overallIndex 0`,
then shape the result exactly as lines 91-109 do. -/
def processInChunksFull {T R : Type} (allItems : List T)
    (processFn : T → Nat → Except String R) (options : ChunkingOptions) :
    CallResult R × List (Nat × T) :=
  let o := resolveOptions options
  let r := processChunksLoop processFn o.noThrow (chunk allItems o.chunkSize) 0 [] []
  match r.1 with
  | Except.error e => (CallResult.thrown e, r.2)
  | Except.ok (results, errorMessages) =>
      if o.noThrow = false then (CallResult.plain results, r.2)
      else if errorMessages = [] then
        (CallResult.structured (ProcessResult.ok results), r.2)
      else
        (CallResult.structured (ProcessResult.err results errorMessages), r.2)

/-- Value of one call of the newer `processInChunks`. -/
def processInChunks {T R : Type} (allItems : List T)
    (processFn : T → Nat → Except String R) (options : ChunkingOptions) :
    CallResult R :=
  (processInChunksFull allItems processFn options).1

/-- Invocation trace of one call of the newer `processInChunks`: the
`(index, item)` arguments passed to `processFn`, in invocation order. -/
def processInChunksCalls {T R : Type} (allItems : List T)
    (processFn : T → Nat → Except String R) (options : ChunkingOptions) :
    List (Nat × T) :=
  (processInChunksFull allItems processFn options).2

/-- Chunk-iteration loop of the newer `processInChunksByChunk` (lines 141-162):
one callback invocation per chunk, with the `chunks.entries()` index passed to
the callback; on failure the catch rethrows when `noThrow` is false and
otherwise records the message and pushes an `undefined` slot. -/
def byChunkLoop {T R : Type} (processFn : List T → Nat → Except String R)
    (noThrow : Bool) :
    List (List T) → Nat → List (Option R) → List String →
      Except String (List (Option R) × List String) × List (Nat × List T)
  | [], _, results, errs => (Except.ok (results, errs), [])
  | items :: rest, index, results, errs =>
      match processFn items index with
      | Except.ok r =>
          let next := byChunkLoop processFn noThrow rest (index + 1)
            (results ++ [some r]) errs
          (next.1, (index, items) :: next.2)
      | Except.error e =>
          match noThrow with
          | false => (Except.error e, [(index, items)])
          | true =>
              let next := byChunkLoop processFn noThrow rest (index + 1)
                (results ++ [none]) (setAdd errs e)
              (next.1, (index, items) :: next.2)

/-- The newer `processInChunksByChunk` (lines 126-183) with its invocation
trace. -/
def processInChunksByChunkFull {T R : Type} (allItems : List T)
    (processFn : List T → Nat → Except String R) (options : ChunkingOptions) :
    CallResult R × List (Nat × List T) :=
  let o := resolveOptions options
  let r := byChunkLoop processFn o.noThrow (chunk allItems o.chunkSize) 0 [] []
  match r.1 with
  | Except.error e => (CallResult.thrown e, r.2)
  | Except.ok (results, errorMessages) =>
      if o.noThrow = false then (CallResult.plain results, r.2)
      else if errorMessages = [] then
        (CallResult.structured (ProcessResult.ok results), r.2)
      else
        (CallResult.structured (ProcessResult.err results errorMessages), r.2)

/-- Value of one call of the newer `processInChunksByChunk`. -/
def processInChunksByChunk {T R : Type} (allItems : List T)
    (processFn : List T → Nat → Except String R) (options : ChunkingOptions) :
    CallResult R :=
  (processInChunksByChunkFull allItems processFn options).1

/-- Invocation trace of one call of the newer `processInChunksByChunk`: the
`(index, chunk)` arguments passed to `processFn`, in invocation order. -/
def processInChunksByChunkCalls {T R : Type} (allItems : List T)
    (processFn : List T → Nat → Except String R) (options : ChunkingOptions) :
    List (Nat × List T) :=
  (processInChunksByChunkFull allItems processFn options).2

end New

namespace Old

/-- Options object of the older revision: no `noThrow` field. -/
structure ChunkingOptions where
  chunkSize : Option Nat
  throttleSeconds : Option ℚ
deriving Repr, DecidableEq

/-- Fully resolved options of the older revision. -/
structure ResolvedOptions where
  chunkSize : Nat
  throttleSeconds : ℚ
deriving Repr, DecidableEq

/-- Source: `optionsDefaults = { chunkSize: 500, throttleSeconds: 0 }` of the
older revision. -/
def optionsDefaults : ResolvedOptions :=
  { chunkSize := 500, throttleSeconds := 0 }

/-- The older defaults as an options object with every field present. -/
def optionsDefaultsObject : ChunkingOptions :=
  { chunkSize := some optionsDefaults.chunkSize
    throttleSeconds := some optionsDefaults.throttleSeconds }

/-- The fresh empty object literal `{}` of the older merge. -/
def emptyOptions : ChunkingOptions :=
  { chunkSize := none, throttleSeconds := none }

/-- JS `Object.assign(target, src)` on older options objects. -/
def objectAssign (tgt src : ChunkingOptions) : ChunkingOptions :=
  { chunkSize := assignField tgt.chunkSize src.chunkSize
    throttleSeconds := assignField tgt.throttleSeconds src.throttleSeconds }

/-- Older revision's `Object.assign({}, optionsDefaults, options)`. -/
def mergedOptions (options : ChunkingOptions) : ChunkingOptions :=
  objectAssign (objectAssign emptyOptions optionsDefaultsObject) options

/-- Contents of the caller's `options` object after an older-revision call
(nothing in the body writes it). -/
def optionsAfterCall (options : ChunkingOptions) : ChunkingOptions := options

/-- Destructuring of the older merged options. -/
def resolveOptions (options : ChunkingOptions) : ResolvedOptions :=
  { chunkSize := (mergedOptions options).chunkSize.getD optionsDefaults.chunkSize
    throttleSeconds :=
      (mergedOptions options).throttleSeconds.getD optionsDefaults.throttleSeconds }

/-- Chunk-iteration loop of the older `processInChunks` (lines 47-80): like the
newer loop with `noThrow: true`, every failure is caught, its message added to
the set and an `undefined` slot pushed; nothing ever throws. -/
def processChunksLoop {T R : Type} (processFn : T → Nat → Except String R) :
    List (List T) → Nat → List (Option R) → List String →
      (List (Option R) × List String) × List (Nat × T)
  | [], _, results, errs => ((results, errs), [])
  | items :: rest, overallIndex, results, errs =>
      let next := processChunksLoop processFn rest (overallIndex + items.length)
        (results ++ chunkSlots processFn overallIndex items)
        (addAll errs (chunkErrList processFn overallIndex items))
      (next.1, chunkItemCalls overallIndex items ++ next.2)

/-- The older `processInChunks` (lines 30-96) with its invocation trace; the
result is always a structured `ProcessResult` (lines 84-95). -/
def processInChunksFull {T R : Type} (allItems : List T)
    (processFn : T → Nat → Except String R) (options : ChunkingOptions) :
    ProcessResult R × List (Nat × T) :=
  let o := resolveOptions options
  let r := processChunksLoop processFn (chunk allItems o.chunkSize) 0 [] []
  let results := r.1.1
  let errorMessages := r.1.2
  if errorMessages = [] then (ProcessResult.ok results, r.2)
  else (ProcessResult.err results errorMessages, r.2)

/-- Value of one call of the older `processInChunks`. -/
def processInChunks {T R : Type} (allItems : List T)
    (processFn : T → Nat → Except String R) (options : ChunkingOptions) :
    ProcessResult R :=
  (processInChunksFull allItems processFn options).1

/-- Invocation trace of one call of the older `processInChunks`. -/
def processInChunksCalls {T R : Type} (allItems : List T)
    (processFn : T → Nat → Except String R) (options : ChunkingOptions) :
    List (Nat × T) :=
  (processInChunksFull allItems processFn options).2

/-- Chunk-iteration loop of the older `processInChunksByChunk` (lines 119-143):
the callback receives `overallIndex`, which starts at 0 and is incremented by
the raw `chunkSize` after every chunk (in the `try` and in the `catch` branch
alike); failures are always collected. -/
def byChunkLoop {T R : Type} (processFn : List T → Nat → Except String R)
    (chunkSize : Nat) :
    List (List T) → Nat → List (Option R) → List String →
      (List (Option R) × List String) × List (Nat × List T)
  | [], _, results, errs => ((results, errs), [])
  | items :: rest, overallIndex, results, errs =>
      match processFn items overallIndex with
      | Except.ok r =>
          let next := byChunkLoop processFn chunkSize rest (overallIndex + chunkSize)
            (results ++ [some r]) errs
          (next.1, (overallIndex, items) :: next.2)
      | Except.error e =>
          let next := byChunkLoop processFn chunkSize rest (overallIndex + chunkSize)
            (results ++ [none]) (setAdd errs e)
          (next.1, (overallIndex, items) :: next.2)

/-- The older `processInChunksByChunk` (lines 102-159) with its invocation
trace. -/
def processInChunksByChunkFull {T R : Type} (allItems : List T)
    (processFn : List T → Nat → Except String R) (options : ChunkingOptions) :
    ProcessResult R × List (Nat × List T) :=
  let o := resolveOptions options
  let r := byChunkLoop processFn o.chunkSize (chunk allItems o.chunkSize) 0 [] []
  let results := r.1.1
  let errorMessages := r.1.2
  if errorMessages = [] then (ProcessResult.ok results, r.2)
  else (ProcessResult.err results errorMessages, r.2)

/-- Value of one call of the older `processInChunksByChunk`. -/
def processInChunksByChunk {T R : Type} (allItems : List T)
    (processFn : List T → Nat → Except String R) (options : ChunkingOptions) :
    ProcessResult R :=
  (processInChunksByChunkFull allItems processFn options).1

/-- Invocation trace of one call of the older `processInChunksByChunk`: the
`(overallIndex, chunk)` arguments passed to `processFn`. -/
def processInChunksByChunkCalls {T R : Type} (allItems : List T)
    (processFn : List T → Nat → Except String R) (options : ChunkingOptions) :
    List (Nat × List T) :=
  (processInChunksByChunkFull allItems processFn options).2

end Old

/-! ### Timed model of the throttled loop

Both revisions, in both modes, execute per iteration
`await (throttleSeconds > 0 ? Promise.all([processing, waitSeconds(s)]) :
processing)`.  The unit promises are created before anything is awaited, so
processing starts at the beginning of the iteration; `waitSeconds s` completes
after `s` seconds; `Promise.all` of two already-started promises settles when
the later of the two settles.  The loop body is otherwise synchronous, so the
iteration's wall-clock span is the span of that single `await`. -/

/-- Wall-clock span of one loop iteration whose chunk takes
`processingDuration` seconds: `Promise.all([processing, waitSeconds s])` when
`s > 0`, plain `processing` otherwise. -/
def iterationAdvance (throttleSeconds processingDuration : ℚ) : ℚ :=
  if 0 < throttleSeconds then max processingDuration throttleSeconds
  else processingDuration

/-- Start time of chunk `k`, given the processing durations of the chunks: the
loop is sequential, so chunk `k` starts when the previous `k` iterations have
advanced. -/
def chunkStart (throttleSeconds : ℚ) (durations : List ℚ) (k : Nat) : ℚ :=
  ((durations.take k).map (iterationAdvance throttleSeconds)).sum

/-- Offset, within its iteration, at which a chunk's processing starts: the
unit promises are created before the delay is awaited, so processing is not
gated by the delay. -/
def processingStartOffset (_throttleSeconds : ℚ) : ℚ := 0

/-! ### Basic lemmas about the per-chunk helpers -/

theorem chunkSlots_length {T R : Type} (f : T → Nat → Except String R) :
    ∀ (l : List T) (base : Nat), (chunkSlots f base l).length = l.length := by
  intro l
  induction l with
  | nil => intro base; rfl
  | cons v vs ih => intro base; simp [chunkSlots, ih]

theorem chunkSlots_append {T R : Type} (f : T → Nat → Except String R) :
    ∀ (xs ys : List T) (base : Nat),
      chunkSlots f base (xs ++ ys)
        = chunkSlots f base xs ++ chunkSlots f (base + xs.length) ys := by
  intro xs
  induction xs with
  | nil => intro ys base; simp [chunkSlots]
  | cons v vs ih =>
      intro ys base
      have harith : base + 1 + vs.length = base + (vs.length + 1) := by omega
      simp only [List.cons_append, chunkSlots, List.length_cons, List.append_eq]
      rw [ih, harith]

theorem chunkSlots_get? {T R : Type} (f : T → Nat → Except String R) :
    ∀ (l : List T) (base i : Nat) (v : T), l.get? i = some v →
      (chunkSlots f base l).get? i = some (slotOf (f v (base + i))) := by
  intro l
  induction l with
  | nil => intro base i v h; simp at h
  | cons x xs ih =>
      intro base i v h
      match i with
      | 0 =>
          simp only [List.get?] at h
          cases h
          simp [chunkSlots]
      | Nat.succ j =>
          simp only [List.get?] at h
          have := ih (base + 1) j v h
          simp only [chunkSlots, List.get?]
          rw [this]
          have : base + 1 + j = base + (j + 1) := by omega
          rw [this]

theorem chunkErrList_append {T R : Type} (f : T → Nat → Except String R) :
    ∀ (xs ys : List T) (base : Nat),
      chunkErrList f base (xs ++ ys)
        = chunkErrList f base xs ++ chunkErrList f (base + xs.length) ys := by
  intro xs
  induction xs with
  | nil => intro ys base; simp [chunkErrList]
  | cons v vs ih =>
      intro ys base
      have harith : base + 1 + vs.length = base + (vs.length + 1) := by omega
      cases hf : f v base with
      | ok r =>
          simp only [List.cons_append, chunkErrList, hf, List.length_cons,
            List.append_eq]
          rw [ih, harith]
      | error e =>
          simp only [List.cons_append, chunkErrList, hf, List.length_cons,
            List.append_eq]
          rw [ih, harith]

theorem chunkItemCalls_length {T : Type} :
    ∀ (l : List T) (base : Nat), (chunkItemCalls base l).length = l.length := by
  intro l
  induction l with
  | nil => intro base; rfl
  | cons v vs ih => intro base; simp [chunkItemCalls, ih]

theorem chunkItemCalls_append {T : Type} :
    ∀ (xs ys : List T) (base : Nat),
      chunkItemCalls base (xs ++ ys)
        = chunkItemCalls base xs ++ chunkItemCalls (base + xs.length) ys := by
  intro xs
  induction xs with
  | nil => intro ys base; simp [chunkItemCalls]
  | cons v vs ih =>
      intro ys base
      have harith : base + 1 + vs.length = base + (vs.length + 1) := by omega
      simp only [List.cons_append, chunkItemCalls, List.length_cons,
        List.append_eq]
      rw [ih, harith]

theorem chunkItemCalls_eq_zip {T : Type} :
    ∀ (l : List T) (base : Nat),
      chunkItemCalls base l = ((List.range l.length).map (· + base)).zip l := by
  intro l
  induction l with
  | nil => intro base; rfl
  | cons v vs ih =>
      intro base
      have hcomp : ((fun a : Nat => a + base) ∘ fun a : Nat => a + 1)
          = (fun a : Nat => a + (base + 1)) := by
        funext a
        simp only [Function.comp_apply]
        omega
      simp only [chunkItemCalls, List.length_cons, List.range_succ_eq_map,
        List.map_cons, List.map_map, List.zip_cons_cons, Nat.zero_add, hcomp]
      rw [ih (base + 1)]

theorem chunkItemCalls_zero_eq_zip {T : Type} (l : List T) :
    chunkItemCalls 0 l = (List.range l.length).zip l := by
  rw [chunkItemCalls_eq_zip]
  simp

theorem mem_chunkItemCalls_bound {T : Type} :
    ∀ (l : List T) (base : Nat) (p : Nat × T), p ∈ chunkItemCalls base l →
      base ≤ p.1 ∧ p.1 < base + l.length := by
  intro l
  induction l with
  | nil => intro base p h; simp [chunkItemCalls] at h
  | cons v vs ih =>
      intro base p h
      simp only [chunkItemCalls, List.mem_cons] at h
      cases h with
      | inl h =>
          subst h
          refine ⟨Nat.le_refl _, ?_⟩
          show base < base + (v :: vs).length
          simp only [List.length_cons]
          omega
      | inr h =>
          have := ih (base + 1) p h
          simp only [List.length_cons]
          omega

theorem firstFailure_append {T R : Type} (f : T → Nat → Except String R) :
    ∀ (xs ys : List T) (base : Nat),
      firstFailure f base (xs ++ ys)
        = match firstFailure f base xs with
          | some p => some p
          | none => (firstFailure f (base + xs.length) ys).map
              (fun p => (p.1 + xs.length, p.2)) := by
  intro xs
  induction xs with
  | nil =>
      intro ys base
      simp only [List.nil_append, firstFailure, List.length_nil, Nat.add_zero]
      cases firstFailure f base ys <;> simp
  | cons v vs ih =>
      intro ys base
      have harith : base + 1 + vs.length = base + (vs.length + 1) := by omega
      cases hf : f v base with
      | error e =>
          simp [List.cons_append, firstFailure, hf]
      | ok r =>
          simp only [List.cons_append, firstFailure, hf, List.length_cons,
            List.append_eq]
          rw [ih ys (base + 1), harith]
          cases hx : firstFailure f (base + 1) vs with
          | some p => simp
          | none =>
              simp only [Option.map_map]
              cases firstFailure f (base + (vs.length + 1)) ys with
              | none => simp
              | some q =>
                  simp [Function.comp]
                  omega

theorem firstFailure_none_iff_errList_nil {T R : Type}
    (f : T → Nat → Except String R) :
    ∀ (l : List T) (base : Nat),
      firstFailure f base l = none ↔ chunkErrList f base l = [] := by
  intro l
  induction l with
  | nil => intro base; simp [firstFailure, chunkErrList]
  | cons v vs ih =>
      intro base
      simp only [firstFailure, chunkErrList]
      cases f v base with
      | error e => simp
      | ok r => simp [ih]

theorem firstFailure_some_bound {T R : Type} (f : T → Nat → Except String R) :
    ∀ (l : List T) (base j : Nat) (e : String),
      firstFailure f base l = some (j, e) → j < l.length := by
  intro l
  induction l with
  | nil => intro base j e h; simp [firstFailure] at h
  | cons v vs ih =>
      intro base j e h
      simp only [firstFailure] at h
      cases hf : f v base with
      | error e' =>
          rw [hf] at h
          simp at h
          obtain ⟨h1, -⟩ := h
          simp only [List.length_cons]
          omega
      | ok r =>
          rw [hf] at h
          simp only [Option.map_eq_some'] at h
          obtain ⟨p, hp, hpe⟩ := h
          have := ih (base + 1) p.1 p.2 (by rw [hp])
          cases hpe
          simp only [List.length_cons]
          omega

/-- Bridging lemma: the spec-side description of "the first failing unit"
determines `firstFailure`. -/
theorem firstFailure_of_spec {T R : Type} (f : T → Nat → Except String R) :
    ∀ (l : List T) (base j : Nat) (e : String) (v : T),
      l.get? j = some v → f v (base + j) = Except.error e →
      (∀ i w, i < j → l.get? i = some w → errOf (f w (base + i)) = none) →
      firstFailure f base l = some (j, e) := by
  intro l
  induction l with
  | nil => intro base j e v hv _ _; simp at hv
  | cons x xs ih =>
      intro base j e v hv hf hok
      match j with
      | 0 =>
          simp only [List.get?] at hv
          cases hv
          simp only [Nat.add_zero] at hf
          simp [firstFailure, hf]
      | Nat.succ k =>
          simp only [List.get?] at hv
          have hx : errOf (f x base) = none := by
            have := hok 0 x (by omega) rfl
            simpa using this
          have hxo : ∃ r, f x base = Except.ok r := by
            cases hfx : f x base with
            | ok r => exact ⟨r, rfl⟩
            | error e' => rw [hfx] at hx; simp [errOf] at hx
          obtain ⟨r, hr⟩ := hxo
          have hrec := ih (base + 1) k e v hv
            (by rw [show base + 1 + k = base + (k + 1) by omega]; exact hf)
            (by
              intro i w hi hw
              have := hok (i + 1) w (by omega) (by simpa using hw)
              rw [show base + 1 + i = base + (i + 1) by omega]
              exact this)
          simp [firstFailure, hr, hrec]

/-! ### Lemmas about the insertion-ordered error-message set -/

theorem filter_ne_filter_not_mem {α : Type} [DecidableEq α] (x : α) (acc : List α)
    (hx : x ∈ acc) (d : List α) :
    (d.filter (fun y => decide (y ≠ x))).filter (fun y => decide (y ∉ acc))
      = d.filter (fun y => decide (y ∉ acc)) := by
  rw [List.filter_filter]
  apply List.filter_congr
  intro a _
  by_cases hacc : a ∈ acc
  · simp [hacc]
  · have hax : a ≠ x := fun h => hacc (h ▸ hx)
    simp [hacc, hax]

theorem filter_not_mem_snoc {α : Type} [DecidableEq α] (x : α) (acc : List α)
    (d : List α) :
    d.filter (fun y => decide (y ∉ acc ++ [x]))
      = (d.filter (fun y => decide (y ≠ x))).filter (fun y => decide (y ∉ acc)) := by
  rw [List.filter_filter]
  apply List.filter_congr
  intro a _
  by_cases hax : a = x
  · subst hax; simp
  · by_cases hacc : a ∈ acc
    · simp [hax, hacc]
    · simp [hax, hacc]

theorem foldl_setAdd_eq : ∀ (l acc : List String),
    List.foldl setAdd acc l
      = acc ++ (dedupFirst l).filter (fun y => decide (y ∉ acc)) := by
  intro l
  induction l with
  | nil => intro acc; simp [dedupFirst]
  | cons x xs ih =>
      intro acc
      simp only [List.foldl_cons, dedupFirst]
      by_cases hx : x ∈ acc
      · have hsa : setAdd acc x = acc := by simp [setAdd, hx]
        rw [hsa, ih acc]
        simp only [List.filter_cons]
        have : decide (x ∉ acc) = false := by simp [hx]
        rw [this]
        simp only [Bool.false_eq_true, if_false]
        rw [filter_ne_filter_not_mem x acc hx]
      · have hsa : setAdd acc x = acc ++ [x] := by simp [setAdd, hx]
        rw [hsa, ih (acc ++ [x])]
        simp only [List.filter_cons]
        have : decide (x ∉ acc) = true := by simp [hx]
        rw [this]
        simp only [if_true]
        rw [filter_not_mem_snoc x acc]
        simp

theorem addAll_nil_eq_dedupFirst (l : List String) :
    addAll [] l = dedupFirst l := by
  rw [addAll, foldl_setAdd_eq]
  simp

theorem dedupFirst_nodup : ∀ (l : List String), (dedupFirst l).Nodup := by
  intro l
  induction l with
  | nil => simp [dedupFirst]
  | cons x xs ih =>
      simp only [dedupFirst, List.nodup_cons]
      constructor
      · intro hmem
        have := List.of_mem_filter hmem
        simp at this
      · exact List.Nodup.filter _ ih

theorem mem_dedupFirst : ∀ (l : List String) (m : String),
    m ∈ dedupFirst l ↔ m ∈ l := by
  intro l
  induction l with
  | nil => intro m; simp [dedupFirst]
  | cons x xs ih =>
      intro m
      simp only [dedupFirst, List.mem_cons]
      constructor
      · intro h
        cases h with
        | inl h => exact Or.inl h
        | inr h => exact Or.inr ((ih m).mp (List.mem_of_mem_filter h))
      · intro h
        by_cases hmx : m = x
        · exact Or.inl hmx
        · cases h with
          | inl h => exact Or.inl h
          | inr h =>
              refine Or.inr (List.mem_filter.mpr ⟨(ih m).mpr h, ?_⟩)
              simp [hmx]

theorem dedupFirst_eq_nil_iff : ∀ (l : List String),
    dedupFirst l = [] ↔ l = [] := by
  intro l
  cases l with
  | nil => simp [dedupFirst]
  | cons x xs => simp [dedupFirst]

theorem addAll_append (acc : List String) (a b : List String) :
    addAll acc (a ++ b) = addAll (addAll acc a) b := by
  simp [addAll, List.foldl_append]

theorem chunkErrList_eq_nil_iff {T R : Type} (f : T → Nat → Except String R) :
    ∀ (l : List T) (base : Nat),
      chunkErrList f base l = [] ↔
        ∀ i v, l.get? i = some v → errOf (f v (base + i)) = none := by
  intro l
  induction l with
  | nil =>
      intro base
      constructor
      · intro _ i v hv; simp at hv
      · intro _; rfl
  | cons x xs ih =>
      intro base
      cases hf : f x base with
      | error e =>
          simp only [chunkErrList, hf]
          constructor
          · intro h; exact absurd h (by simp)
          · intro h
            have := h 0 x rfl
            rw [Nat.add_zero, hf] at this
            simp [errOf] at this
      | ok r =>
          simp only [chunkErrList, hf]
          rw [ih (base + 1)]
          constructor
          · intro h i v hv
            match i with
            | 0 =>
                simp only [List.get?] at hv
                cases hv
                rw [Nat.add_zero, hf]
                rfl
            | Nat.succ k =>
                simp only [List.get?] at hv
                have := h k v hv
                rw [show base + 1 + k = base + (k + 1) by omega] at this
                exact this
          · intro h i v hv
            have := h (i + 1) v (by simpa using hv)
            rw [show base + (i + 1) = base + 1 + i by omega] at this
            exact this

/-! ### Unfolding equations for the chunk partitioner and the loops -/

theorem chunk_nil {T : Type} (size : Nat) : chunk ([] : List T) size = [] := by
  rw [chunk]

theorem chunk_cons_eq {T : Type} (x : T) (xs : List T) (size : Nat) :
    chunk (x :: xs) size
      = (x :: xs).take (max size 1) :: chunk ((x :: xs).drop (max size 1)) size := by
  rw [chunk]

theorem New.processChunksLoop_nil {T R : Type} (f : T → Nat → Except String R)
    (nt : Bool) (b : Nat) (res : List (Option R)) (errs : List String) :
    New.processChunksLoop f nt [] b res errs = (Except.ok (res, errs), []) := rfl

theorem New.processChunksLoop_cons_true {T R : Type} (f : T → Nat → Except String R)
    (c : List T) (cs : List (List T)) (b : Nat) (res : List (Option R))
    (errs : List String) :
    New.processChunksLoop f true (c :: cs) b res errs
      = ((New.processChunksLoop f true cs (b + c.length)
            (res ++ chunkSlots f b c) (addAll errs (chunkErrList f b c))).1,
         chunkItemCalls b c ++ (New.processChunksLoop f true cs (b + c.length)
            (res ++ chunkSlots f b c) (addAll errs (chunkErrList f b c))).2) := rfl

theorem New.processChunksLoop_cons_false {T R : Type} (f : T → Nat → Except String R)
    (c : List T) (cs : List (List T)) (b : Nat) (res : List (Option R))
    (errs : List String) :
    New.processChunksLoop f false (c :: cs) b res errs
      = (match firstFailure f b c with
         | some (_, e) => (Except.error e, chunkItemCalls b c)
         | none =>
             ((New.processChunksLoop f false cs (b + c.length)
                 (res ++ chunkSlots f b c) errs).1,
              chunkItemCalls b c ++ (New.processChunksLoop f false cs (b + c.length)
                 (res ++ chunkSlots f b c) errs).2)) := rfl

theorem Old.itemLoop_nil {T R : Type} (f : T → Nat → Except String R)
    (b : Nat) (res : List (Option R)) (errs : List String) :
    Old.processChunksLoop f [] b res errs = ((res, errs), []) := rfl

theorem Old.processChunksLoop_cons {T R : Type} (f : T → Nat → Except String R)
    (c : List T) (cs : List (List T)) (b : Nat) (res : List (Option R))
    (errs : List String) :
    Old.processChunksLoop f (c :: cs) b res errs
      = ((Old.processChunksLoop f cs (b + c.length)
            (res ++ chunkSlots f b c) (addAll errs (chunkErrList f b c))).1,
         chunkItemCalls b c ++ (Old.processChunksLoop f cs (b + c.length)
            (res ++ chunkSlots f b c) (addAll errs (chunkErrList f b c))).2) := rfl

/-! ### Closed forms of the item-mode chunk loops -/

theorem New.collectLoop_closedAux {T R : Type} (f : T → Nat → Except String R)
    (size : Nat) :
    ∀ (n : Nat) (items : List T), items.length ≤ n →
      ∀ (base : Nat) (res : List (Option R)) (errs : List String),
        New.processChunksLoop f true (chunk items size) base res errs
          = (Except.ok (res ++ chunkSlots f base items,
               addAll errs (chunkErrList f base items)),
             chunkItemCalls base items) := by
  intro n
  induction n with
  | zero =>
      intro items hlen base res errs
      have : items = [] := List.length_eq_zero.mp (Nat.le_zero.mp hlen)
      subst this
      simp [chunk_nil, New.processChunksLoop_nil, chunkSlots, chunkErrList,
        chunkItemCalls, addAll]
  | succ n ih =>
      intro items hlen base res errs
      cases items with
      | nil =>
          simp [chunk_nil, New.processChunksLoop_nil, chunkSlots, chunkErrList,
            chunkItemCalls, addAll]
      | cons x xs =>
          rw [chunk_cons_eq, New.processChunksLoop_cons_true]
          have hs1pos : 1 ≤ max size 1 := le_max_right size 1
          have hcr : (x :: xs).take (max size 1) ++ (x :: xs).drop (max size 1)
              = x :: xs := List.take_append_drop (max size 1) (x :: xs)
          have hrlen : ((x :: xs).drop (max size 1)).length ≤ n := by
            rw [List.length_drop]
            simp only [List.length_cons] at hlen ⊢
            omega
          rw [ih ((x :: xs).drop (max size 1)) hrlen]
          conv_rhs => rw [← hcr]
          rw [chunkSlots_append, chunkErrList_append, chunkItemCalls_append,
            addAll_append]
          simp [List.append_assoc]

theorem New.collectLoop_closed {T R : Type} (f : T → Nat → Except String R)
    (size : Nat) (items : List T) (base : Nat) (res : List (Option R))
    (errs : List String) :
    New.processChunksLoop f true (chunk items size) base res errs
      = (Except.ok (res ++ chunkSlots f base items,
           addAll errs (chunkErrList f base items)),
         chunkItemCalls base items) :=
  New.collectLoop_closedAux f size items.length items (Nat.le_refl _) base res errs

theorem Old.itemLoop_closedAux {T R : Type} (f : T → Nat → Except String R)
    (size : Nat) :
    ∀ (n : Nat) (items : List T), items.length ≤ n →
      ∀ (base : Nat) (res : List (Option R)) (errs : List String),
        Old.processChunksLoop f (chunk items size) base res errs
          = ((res ++ chunkSlots f base items,
               addAll errs (chunkErrList f base items)),
             chunkItemCalls base items) := by
  intro n
  induction n with
  | zero =>
      intro items hlen base res errs
      have : items = [] := List.length_eq_zero.mp (Nat.le_zero.mp hlen)
      subst this
      simp [chunk_nil, Old.itemLoop_nil, chunkSlots, chunkErrList,
        chunkItemCalls, addAll]
  | succ n ih =>
      intro items hlen base res errs
      cases items with
      | nil =>
          simp [chunk_nil, Old.itemLoop_nil, chunkSlots, chunkErrList,
            chunkItemCalls, addAll]
      | cons x xs =>
          rw [chunk_cons_eq, Old.processChunksLoop_cons]
          have hs1pos : 1 ≤ max size 1 := le_max_right size 1
          have hcr : (x :: xs).take (max size 1) ++ (x :: xs).drop (max size 1)
              = x :: xs := List.take_append_drop (max size 1) (x :: xs)
          have hrlen : ((x :: xs).drop (max size 1)).length ≤ n := by
            rw [List.length_drop]
            simp only [List.length_cons] at hlen ⊢
            omega
          rw [ih ((x :: xs).drop (max size 1)) hrlen]
          conv_rhs => rw [← hcr]
          rw [chunkSlots_append, chunkErrList_append, chunkItemCalls_append,
            addAll_append]
          simp [List.append_assoc]

theorem Old.itemLoop_closed {T R : Type} (f : T → Nat → Except String R)
    (size : Nat) (items : List T) (base : Nat) (res : List (Option R))
    (errs : List String) :
    Old.processChunksLoop f (chunk items size) base res errs
      = ((res ++ chunkSlots f base items,
           addAll errs (chunkErrList f base items)),
         chunkItemCalls base items) :=
  Old.itemLoop_closedAux f size items.length items (Nat.le_refl _) base res errs

theorem New.ffLoop_noneAux {T R : Type} (f : T → Nat → Except String R)
    (size : Nat) :
    ∀ (n : Nat) (items : List T), items.length ≤ n →
      ∀ (base : Nat) (res : List (Option R)) (errs : List String),
        firstFailure f base items = none →
        New.processChunksLoop f false (chunk items size) base res errs
          = (Except.ok (res ++ chunkSlots f base items, errs),
             chunkItemCalls base items) := by
  intro n
  induction n with
  | zero =>
      intro items hlen base res errs _
      have : items = [] := List.length_eq_zero.mp (Nat.le_zero.mp hlen)
      subst this
      simp [chunk_nil, New.processChunksLoop_nil, chunkSlots, chunkItemCalls]
  | succ n ih =>
      intro items hlen base res errs hff
      cases items with
      | nil =>
          simp [chunk_nil, New.processChunksLoop_nil, chunkSlots, chunkItemCalls]
      | cons x xs =>
          have hs1pos : 1 ≤ max size 1 := le_max_right size 1
          have hcr : (x :: xs).take (max size 1) ++ (x :: xs).drop (max size 1)
              = x :: xs := List.take_append_drop (max size 1) (x :: xs)
          have hsplit := firstFailure_append f ((x :: xs).take (max size 1))
            ((x :: xs).drop (max size 1)) base
          rw [hcr, hff] at hsplit
          have hcnone : firstFailure f base ((x :: xs).take (max size 1)) = none := by
            cases hc : firstFailure f base ((x :: xs).take (max size 1)) with
            | none => rfl
            | some p => rw [hc] at hsplit; exact absurd hsplit.symm (by simp)
          rw [hcnone] at hsplit
          have hrnone : firstFailure f
              (base + ((x :: xs).take (max size 1)).length)
              ((x :: xs).drop (max size 1)) = none := by
            have := hsplit.symm
            exact Option.map_eq_none'.mp this
          rw [chunk_cons_eq, New.processChunksLoop_cons_false, hcnone]
          have hrlen : ((x :: xs).drop (max size 1)).length ≤ n := by
            rw [List.length_drop]
            simp only [List.length_cons] at hlen ⊢
            omega
          rw [ih ((x :: xs).drop (max size 1)) hrlen _ _ _ hrnone]
          conv_rhs => rw [← hcr]
          rw [chunkSlots_append, chunkItemCalls_append]
          simp [List.append_assoc]

theorem New.ffLoop_someAux {T R : Type} (f : T → Nat → Except String R)
    (size : Nat) :
    ∀ (n : Nat) (items : List T), items.length ≤ n →
      ∀ (base : Nat) (res : List (Option R)) (errs : List String) (j : Nat)
        (e : String),
        firstFailure f base items = some (j, e) →
        New.processChunksLoop f false (chunk items size) base res errs
          = (Except.error e,
             chunkItemCalls base
               (items.take (min items.length ((j / max size 1 + 1) * max size 1)))) := by
  intro n
  induction n with
  | zero =>
      intro items hlen base res errs j e hff
      have : items = [] := List.length_eq_zero.mp (Nat.le_zero.mp hlen)
      subst this
      simp [firstFailure] at hff
  | succ n ih =>
      intro items hlen base res errs j e hff
      cases items with
      | nil => simp [firstFailure] at hff
      | cons x xs =>
          have hs1pos : 1 ≤ max size 1 := le_max_right size 1
          have hcr : (x :: xs).take (max size 1) ++ (x :: xs).drop (max size 1)
              = x :: xs := List.take_append_drop (max size 1) (x :: xs)
          have hclen : ((x :: xs).take (max size 1)).length
              = min (max size 1) (x :: xs).length := List.length_take _ _
          have hsplit := firstFailure_append f ((x :: xs).take (max size 1))
            ((x :: xs).drop (max size 1)) base
          rw [hcr, hff] at hsplit
          rw [chunk_cons_eq, New.processChunksLoop_cons_false]
          cases hc : firstFailure f base ((x :: xs).take (max size 1)) with
          | some p =>
              rw [hc] at hsplit
              have hpj : p = (j, e) := by
                cases hsplit
                rfl
              subst hpj
              simp only []
              have hjlt : j < ((x :: xs).take (max size 1)).length :=
                firstFailure_some_bound f _ base j e hc
              have hjs1 : j < max size 1 := by
                rw [hclen] at hjlt
                omega
              have hdiv : j / max size 1 = 0 := Nat.div_eq_of_lt hjs1
              have htake : (x :: xs).take
                    (min (x :: xs).length ((j / max size 1 + 1) * max size 1))
                  = (x :: xs).take (max size 1) := by
                apply List.take_eq_take.mpr
                rw [hdiv]
                simp only [Nat.zero_add, Nat.one_mul]
                omega
              rw [htake]
          | none =>
              rw [hc] at hsplit
              simp only [] at hsplit
              have hr : ∃ j', firstFailure f
                  (base + ((x :: xs).take (max size 1)).length)
                  ((x :: xs).drop (max size 1)) = some (j', e)
                  ∧ j = j' + ((x :: xs).take (max size 1)).length := by
                cases hrx : firstFailure f
                    (base + ((x :: xs).take (max size 1)).length)
                    ((x :: xs).drop (max size 1)) with
                | none => rw [hrx] at hsplit; simp at hsplit
                | some q =>
                    rw [hrx] at hsplit
                    simp only [Option.map_some'] at hsplit
                    refine ⟨q.1, ?_, ?_⟩
                    · cases hsplit; rfl
                    · cases hsplit; rfl
              obtain ⟨j', hrff, hjj⟩ := hr
              have hrnonnil : (x :: xs).drop (max size 1) ≠ [] := by
                intro hnil
                rw [hnil] at hrff
                simp [firstFailure] at hrff
              have hlgt : max size 1 < (x :: xs).length := by
                by_contra hle
                push_neg at hle
                have : (x :: xs).drop (max size 1) = [] :=
                  List.drop_eq_nil_of_le hle
                exact hrnonnil this
              have hclen' : ((x :: xs).take (max size 1)).length = max size 1 := by
                rw [hclen]
                omega
              have hrlen : ((x :: xs).drop (max size 1)).length ≤ n := by
                rw [List.length_drop]
                simp only [List.length_cons] at hlen ⊢
                omega
              rw [ih ((x :: xs).drop (max size 1)) hrlen _ _ _ j' e hrff]
              rw [← chunkItemCalls_append]
              rw [hclen']
              have hdivstep : j / max size 1 = j' / max size 1 + 1 := by
                rw [hjj, hclen']
                exact Nat.add_div_right j' (by omega)
              rw [hdivstep, List.length_drop]
              have harith :
                  min (x :: xs).length ((j' / max size 1 + 1 + 1) * max size 1)
                    = max size 1 + min ((x :: xs).length - max size 1)
                        ((j' / max size 1 + 1) * max size 1) := by
                have hmul : (j' / max size 1 + 1 + 1) * max size 1
                    = (j' / max size 1 + 1) * max size 1 + max size 1 := by
                  ring
                rw [hmul]
                omega
              rw [harith, List.take_add]

theorem New.ffLoop_none {T R : Type} (f : T → Nat → Except String R)
    (size : Nat) (items : List T) (base : Nat) (res : List (Option R))
    (errs : List String) (hff : firstFailure f base items = none) :
    New.processChunksLoop f false (chunk items size) base res errs
      = (Except.ok (res ++ chunkSlots f base items, errs),
         chunkItemCalls base items) :=
  New.ffLoop_noneAux f size items.length items (Nat.le_refl _) base res errs hff

theorem New.ffLoop_some {T R : Type} (f : T → Nat → Except String R)
    (size : Nat) (items : List T) (base : Nat) (res : List (Option R))
    (errs : List String) (j : Nat) (e : String)
    (hff : firstFailure f base items = some (j, e)) :
    New.processChunksLoop f false (chunk items size) base res errs
      = (Except.error e,
         chunkItemCalls base
           (items.take (min items.length ((j / max size 1 + 1) * max size 1)))) :=
  New.ffLoop_someAux f size items.length items (Nat.le_refl _) base res errs j e hff

/-! ### Closed forms of the chunk-mode loops -/

theorem New.byChunkLoop_collect {T R : Type} (f : List T → Nat → Except String R) :
    ∀ (cs : List (List T)) (k : Nat) (res : List (Option R)) (errs : List String),
      New.byChunkLoop f true cs k res errs
        = (Except.ok (res ++ chunkSlots f k cs, addAll errs (chunkErrList f k cs)),
           chunkItemCalls k cs) := by
  intro cs
  induction cs with
  | nil =>
      intro k res errs
      simp [New.byChunkLoop, chunkSlots, chunkErrList, chunkItemCalls, addAll]
  | cons c cs ih =>
      intro k res errs
      cases hc : f c k with
      | ok r =>
          simp only [New.byChunkLoop, hc, ih, chunkSlots, chunkErrList,
            chunkItemCalls, slotOf]
          simp [List.append_assoc]
      | error e =>
          simp only [New.byChunkLoop, hc, ih, chunkSlots, chunkErrList,
            chunkItemCalls, slotOf, addAll, List.foldl_cons]
          simp [List.append_assoc]

theorem New.byChunkLoop_ff_none {T R : Type} (f : List T → Nat → Except String R) :
    ∀ (cs : List (List T)) (k : Nat) (res : List (Option R)) (errs : List String),
      firstFailure f k cs = none →
      New.byChunkLoop f false cs k res errs
        = (Except.ok (res ++ chunkSlots f k cs, errs), chunkItemCalls k cs) := by
  intro cs
  induction cs with
  | nil =>
      intro k res errs _
      simp [New.byChunkLoop, chunkSlots, chunkItemCalls]
  | cons c cs ih =>
      intro k res errs hff
      cases hc : f c k with
      | error e =>
          rw [firstFailure] at hff
          rw [hc] at hff
          simp at hff
      | ok r =>
          rw [firstFailure] at hff
          rw [hc] at hff
          simp only [Option.map_eq_none'] at hff
          have hrec := ih (k + 1) (res ++ [some r]) errs hff
          simp only [New.byChunkLoop, hc, hrec, chunkSlots, chunkItemCalls, slotOf]
          simp [List.append_assoc]

theorem New.byChunkLoop_ff_some {T R : Type} (f : List T → Nat → Except String R) :
    ∀ (cs : List (List T)) (k : Nat) (res : List (Option R)) (errs : List String)
      (j : Nat) (e : String),
      firstFailure f k cs = some (j, e) →
      New.byChunkLoop f false cs k res errs
        = (Except.error e, chunkItemCalls k (cs.take (j + 1))) := by
  intro cs
  induction cs with
  | nil => intro k res errs j e hff; simp [firstFailure] at hff
  | cons c cs ih =>
      intro k res errs j e hff
      cases hc : f c k with
      | error e0 =>
          rw [firstFailure] at hff
          rw [hc] at hff
          simp only [Option.some.injEq, Prod.mk.injEq] at hff
          obtain ⟨hj, he⟩ := hff
          subst he
          rw [← hj]
          simp [New.byChunkLoop, hc, chunkItemCalls]
      | ok r =>
          rw [firstFailure] at hff
          rw [hc] at hff
          simp only [Option.map_eq_some'] at hff
          obtain ⟨p, hp, hpe⟩ := hff
          injection hpe with hj he
          subst hj
          subst he
          have hrec := ih (k + 1) (res ++ [some r]) errs p.1 p.2 (by rw [hp])
          simp only [New.byChunkLoop, hc, hrec]
          have htake : (c :: cs).take (p.1 + 1 + 1) = c :: cs.take (p.1 + 1) := by
            simp [List.take_cons]
          rw [htake]
          simp [chunkItemCalls]

/-- Invocation positions of the older chunk-mode loop: starting at `base`,
advancing by `stride` per chunk. -/
def stridedCalls {T : Type} (stride : Nat) : Nat → List T → List (Nat × T)
  | _, [] => []
  | b, v :: vs => (b, v) :: stridedCalls stride (b + stride) vs

theorem stridedCalls_map_fst {T : Type} (stride : Nat) :
    ∀ (cs : List T) (b : Nat),
      (stridedCalls stride b cs).map Prod.fst
        = (List.range cs.length).map (fun k => b + stride * k) := by
  intro cs
  induction cs with
  | nil => intro b; rfl
  | cons c cs ih =>
      intro b
      have hcomp : ((fun k : Nat => b + stride * k) ∘ fun k : Nat => k + 1)
          = (fun k : Nat => (b + stride) + stride * k) := by
        funext k
        simp only [Function.comp_apply]
        ring
      simp only [stridedCalls, List.map_cons, List.length_cons,
        List.range_succ_eq_map, List.map_map, hcomp, Nat.mul_zero, Nat.add_zero]
      rw [ih (b + stride)]

theorem Old.byChunkLoop_calls {T R : Type} (f : List T → Nat → Except String R)
    (st : Nat) :
    ∀ (cs : List (List T)) (b : Nat) (res : List (Option R)) (errs : List String),
      (Old.byChunkLoop f st cs b res errs).2 = stridedCalls st b cs := by
  intro cs
  induction cs with
  | nil => intro b res errs; rfl
  | cons c cs ih =>
      intro b res errs
      cases hc : f c b with
      | ok r => simp [Old.byChunkLoop, hc, ih, stridedCalls]
      | error e => simp [Old.byChunkLoop, hc, ih, stridedCalls]

/-- Result slots of the older chunk-mode loop: index starting at `base`,
advancing by `stride` per chunk. -/
def stridedSlots {T R : Type} (f : T → Nat → Except String R) (stride : Nat) :
    Nat → List T → List (Option R)
  | _, [] => []
  | b, v :: vs => slotOf (f v b) :: stridedSlots f stride (b + stride) vs

/-- Failure messages of the older chunk-mode loop, in chunk order. -/
def stridedErrList {T R : Type} (f : T → Nat → Except String R) (stride : Nat) :
    Nat → List T → List String
  | _, [] => []
  | b, v :: vs =>
      match f v b with
      | Except.ok _ => stridedErrList f stride (b + stride) vs
      | Except.error e => e :: stridedErrList f stride (b + stride) vs

theorem stridedSlots_length {T R : Type} (f : T → Nat → Except String R)
    (st : Nat) :
    ∀ (l : List T) (b : Nat), (stridedSlots f st b l).length = l.length := by
  intro l
  induction l with
  | nil => intro b; rfl
  | cons v vs ih => intro b; simp [stridedSlots, ih]

theorem stridedSlots_get? {T R : Type} (f : T → Nat → Except String R)
    (st : Nat) :
    ∀ (l : List T) (b i : Nat) (v : T), l.get? i = some v →
      (stridedSlots f st b l).get? i = some (slotOf (f v (b + st * i))) := by
  intro l
  induction l with
  | nil => intro b i v hv; simp at hv
  | cons x xs ih =>
      intro b i v hv
      match i with
      | 0 =>
          simp only [List.get?] at hv
          cases hv
          simp [stridedSlots]
      | Nat.succ k =>
          simp only [List.get?] at hv
          have := ih (b + st) k v hv
          simp only [stridedSlots, List.get?]
          rw [this]
          have harith : b + st + st * k = b + st * (k + 1) := by ring
          rw [harith]

theorem Old.byChunkLoop_closed {T R : Type} (f : List T → Nat → Except String R)
    (st : Nat) :
    ∀ (cs : List (List T)) (b : Nat) (res : List (Option R)) (errs : List String),
      Old.byChunkLoop f st cs b res errs
        = ((res ++ stridedSlots f st b cs, addAll errs (stridedErrList f st b cs)),
           stridedCalls st b cs) := by
  intro cs
  induction cs with
  | nil =>
      intro b res errs
      simp [Old.byChunkLoop, stridedSlots, stridedErrList, stridedCalls, addAll]
  | cons c cs ih =>
      intro b res errs
      cases hc : f c b with
      | ok r =>
          simp only [Old.byChunkLoop, hc, ih, stridedSlots, stridedErrList,
            stridedCalls, slotOf]
          simp [List.append_assoc]
      | error e =>
          simp only [Old.byChunkLoop, hc, ih, stridedSlots, stridedErrList,
            stridedCalls, slotOf, addAll, List.foldl_cons]
          simp [List.append_assoc]

theorem Old.processInChunksByChunkFull_eq {T R : Type} (items : List T)
    (g : List T → Nat → Except String R) (options : Old.ChunkingOptions) :
    Old.processInChunksByChunkFull items g options
      = (if dedupFirst (stridedErrList g (Old.resolveOptions options).chunkSize 0
            (chunk items (Old.resolveOptions options).chunkSize)) = []
         then ProcessResult.ok (stridedSlots g (Old.resolveOptions options).chunkSize 0
            (chunk items (Old.resolveOptions options).chunkSize))
         else ProcessResult.err (stridedSlots g (Old.resolveOptions options).chunkSize 0
            (chunk items (Old.resolveOptions options).chunkSize))
            (dedupFirst (stridedErrList g (Old.resolveOptions options).chunkSize 0
              (chunk items (Old.resolveOptions options).chunkSize))),
         stridedCalls (Old.resolveOptions options).chunkSize 0
           (chunk items (Old.resolveOptions options).chunkSize)) := by
  simp only [Old.processInChunksByChunkFull, Old.byChunkLoop_closed,
    List.nil_append, addAll_nil_eq_dedupFirst]
  split <;> rfl

/-! ### Resolved options in closed form -/

theorem resolveOptions_eq (o : ChunkingOptions) :
    resolveOptions o
      = { chunkSize := o.chunkSize.getD 500
          throttleSeconds := o.throttleSeconds.getD 0
          noThrow := o.noThrow.getD false } := by
  obtain ⟨a, b, c⟩ := o
  cases a <;> cases b <;> cases c <;> rfl

theorem Old.resolveOptions_getD (o : Old.ChunkingOptions) :
    Old.resolveOptions o
      = { chunkSize := o.chunkSize.getD 500
          throttleSeconds := o.throttleSeconds.getD 0 } := by
  obtain ⟨a, b⟩ := o
  cases a <;> cases b <;> rfl

/-! ### Processor-level closed forms -/

theorem New.processInChunksFull_collect {T R : Type} (items : List T)
    (f : T → Nat → Except String R) (options : ChunkingOptions)
    (h : (resolveOptions options).noThrow = true) :
    New.processInChunksFull items f options
      = (if dedupFirst (chunkErrList f 0 items) = []
         then CallResult.structured (ProcessResult.ok (chunkSlots f 0 items))
         else CallResult.structured (ProcessResult.err (chunkSlots f 0 items)
                (dedupFirst (chunkErrList f 0 items))),
         chunkItemCalls 0 items) := by
  simp only [New.processInChunksFull, h, New.collectLoop_closed,
    List.nil_append, addAll_nil_eq_dedupFirst]
  simp only [Bool.true_eq_false, if_false]
  split <;> rfl

theorem New.processInChunksFull_ff_none {T R : Type} (items : List T)
    (f : T → Nat → Except String R) (options : ChunkingOptions)
    (h : (resolveOptions options).noThrow = false)
    (hff : firstFailure f 0 items = none) :
    New.processInChunksFull items f options
      = (CallResult.plain (chunkSlots f 0 items), chunkItemCalls 0 items) := by
  simp only [New.processInChunksFull, h, New.ffLoop_none _ _ _ _ _ _ hff,
    List.nil_append]
  simp

theorem New.processInChunksFull_ff_some {T R : Type} (items : List T)
    (f : T → Nat → Except String R) (options : ChunkingOptions)
    (j : Nat) (e : String)
    (h : (resolveOptions options).noThrow = false)
    (hff : firstFailure f 0 items = some (j, e)) :
    New.processInChunksFull items f options
      = (CallResult.thrown e,
         chunkItemCalls 0
           (items.take (min items.length
             ((j / max (resolveOptions options).chunkSize 1 + 1)
               * max (resolveOptions options).chunkSize 1)))) := by
  simp only [New.processInChunksFull, h, New.ffLoop_some _ _ _ _ _ _ _ _ hff]

theorem New.processInChunksByChunkFull_collect {T R : Type} (items : List T)
    (g : List T → Nat → Except String R) (options : ChunkingOptions)
    (h : (resolveOptions options).noThrow = true) :
    New.processInChunksByChunkFull items g options
      = (if dedupFirst (chunkErrList g 0 (chunk items (resolveOptions options).chunkSize)) = []
         then CallResult.structured (ProcessResult.ok
                (chunkSlots g 0 (chunk items (resolveOptions options).chunkSize)))
         else CallResult.structured (ProcessResult.err
                (chunkSlots g 0 (chunk items (resolveOptions options).chunkSize))
                (dedupFirst (chunkErrList g 0 (chunk items (resolveOptions options).chunkSize)))),
         chunkItemCalls 0 (chunk items (resolveOptions options).chunkSize)) := by
  simp only [New.processInChunksByChunkFull, h, New.byChunkLoop_collect,
    List.nil_append, addAll_nil_eq_dedupFirst]
  simp only [Bool.true_eq_false, if_false]
  split <;> rfl

theorem New.processInChunksByChunkFull_ff_none {T R : Type} (items : List T)
    (g : List T → Nat → Except String R) (options : ChunkingOptions)
    (h : (resolveOptions options).noThrow = false)
    (hff : firstFailure g 0 (chunk items (resolveOptions options).chunkSize) = none) :
    New.processInChunksByChunkFull items g options
      = (CallResult.plain (chunkSlots g 0 (chunk items (resolveOptions options).chunkSize)),
         chunkItemCalls 0 (chunk items (resolveOptions options).chunkSize)) := by
  simp only [New.processInChunksByChunkFull, h,
    New.byChunkLoop_ff_none _ _ _ _ _ hff, List.nil_append]
  simp

theorem New.processInChunksByChunkFull_ff_some {T R : Type} (items : List T)
    (g : List T → Nat → Except String R) (options : ChunkingOptions)
    (j : Nat) (e : String)
    (h : (resolveOptions options).noThrow = false)
    (hff : firstFailure g 0 (chunk items (resolveOptions options).chunkSize)
      = some (j, e)) :
    New.processInChunksByChunkFull items g options
      = (CallResult.thrown e,
         chunkItemCalls 0
           ((chunk items (resolveOptions options).chunkSize).take (j + 1))) := by
  simp only [New.processInChunksByChunkFull, h,
    New.byChunkLoop_ff_some _ _ _ _ _ _ _ hff]

theorem Old.processInChunksFull_eq {T R : Type} (items : List T)
    (f : T → Nat → Except String R) (options : Old.ChunkingOptions) :
    Old.processInChunksFull items f options
      = (if dedupFirst (chunkErrList f 0 items) = []
         then ProcessResult.ok (chunkSlots f 0 items)
         else ProcessResult.err (chunkSlots f 0 items)
                (dedupFirst (chunkErrList f 0 items)),
         chunkItemCalls 0 items) := by
  simp only [Old.processInChunksFull, Old.itemLoop_closed, List.nil_append,
    addAll_nil_eq_dedupFirst]
  split <;> rfl

theorem Old.processInChunksByChunkCalls_eq {T R : Type} (items : List T)
    (g : List T → Nat → Except String R) (options : Old.ChunkingOptions) :
    Old.processInChunksByChunkCalls items g options
      = stridedCalls (Old.resolveOptions options).chunkSize 0
          (chunk items (Old.resolveOptions options).chunkSize) := by
  simp only [Old.processInChunksByChunkCalls, Old.processInChunksByChunkFull,
    Old.byChunkLoop_calls]
  split <;> rfl

/-! ### Spec-side bridging lemmas -/

theorem firstFailure_zero_of_spec {T R : Type} (f : T → Nat → Except String R)
    (l : List T) (j : Nat) (e : String) (v : T)
    (hv : l.get? j = some v) (hf : f v j = Except.error e)
    (hok : ∀ i w, i < j → l.get? i = some w → errOf (f w i) = none) :
    firstFailure f 0 l = some (j, e) := by
  apply firstFailure_of_spec f l 0 j e v hv
  · rw [Nat.zero_add]; exact hf
  · intro i w hi hw
    rw [Nat.zero_add]
    exact hok i w hi hw

theorem chunkSlots_spec {T R : Type} (f : T → Nat → Except String R)
    (items : List T) (i : Nat) (v : T) (hv : items.get? i = some v) :
    (∀ e, f v i = Except.error e → (chunkSlots f 0 items).get? i = some none) ∧
    (∀ r, f v i = Except.ok r → (chunkSlots f 0 items).get? i = some (some r)) := by
  have h := chunkSlots_get? f items 0 i v hv
  rw [Nat.zero_add] at h
  constructor
  · intro e he
    rw [h, he]
    rfl
  · intro r hr
    rw [h, hr]
    rfl

theorem chunkItemCalls_zero_map_fst {T : Type} (l : List T) :
    (chunkItemCalls 0 l).map Prod.fst = List.range l.length := by
  rw [chunkItemCalls_zero_eq_zip]
  exact List.map_fst_zip _ _ (by simp)

theorem zip_take_eq {α β : Type} (l1 : List α) (l2 : List β) (n : Nat) :
    (l1.zip l2).take n = (l1.take n).zip (l2.take n) := by
  simp [List.zip, List.take_zipWith]

theorem chunkErrList_ne_nil_iff {T R : Type} (f : T → Nat → Except String R)
    (l : List T) :
    chunkErrList f 0 l ≠ [] ↔
      ∃ i v, l.get? i = some v ∧ errOf (f v i) ≠ none := by
  rw [Ne, chunkErrList_eq_nil_iff]
  push_neg
  constructor
  · rintro ⟨i, v, hv, he⟩
    exact ⟨i, v, hv, by rw [Nat.zero_add] at he; exact he⟩
  · rintro ⟨i, v, hv, he⟩
    exact ⟨i, v, hv, by rw [Nat.zero_add]; exact he⟩

/-! ### Claim theorems -/

theorem stridedSlots_spec {T R : Type} (f : T → Nat → Except String R)
    (st : Nat) (cs : List T) (k : Nat) (c : T) (hc : cs.get? k = some c) :
    (∀ e, f c (st * k) = Except.error e →
       (stridedSlots f st 0 cs).get? k = some none) ∧
    (∀ r, f c (st * k) = Except.ok r →
       (stridedSlots f st 0 cs).get? k = some (some r)) := by
  have h := stridedSlots_get? f st cs 0 k c hc
  rw [Nat.zero_add] at h
  constructor
  · intro e he
    rw [h, he]
    rfl
  · intro r hr
    rw [h, hr]
    rfl

/-- Claim C1: for every item collection, callback, and configuration selecting
collect mode (`noThrow: true` in the newer revision; unconditionally in the
older revision), both processors — item-mode and chunk-mode, in both
revisions — return normally: collect mode never throws for unit failures, and
the returned results array has exactly one slot per unit, in unit order; a
slot is `undefined` (`none`) exactly where that unit's processing failed, and
every other slot holds the unit's successful result (in the older chunk-mode
processor a chunk's unit index is its item offset `chunkSize * k`). -/
theorem claim1_collect_result_shape {T R : Type} (items : List T)
    (f : T → Nat → Except String R)
    (g gOld : List T → Nat → Except String R) (options : ChunkingOptions)
    (oldOptions : Old.ChunkingOptions)
    (h : options.noThrow = some true) :
    (∃ pr : ProcessResult R,
       New.processInChunks items f options = CallResult.structured pr ∧
       pr.results.length = items.length ∧
       (∀ i v, items.get? i = some v →
         (∀ e, f v i = Except.error e → pr.results.get? i = some none) ∧
         (∀ r, f v i = Except.ok r → pr.results.get? i = some (some r))))
    ∧ ((Old.processInChunks items f oldOptions).results.length = items.length ∧
       (∀ i v, items.get? i = some v →
         (∀ e, f v i = Except.error e →
            (Old.processInChunks items f oldOptions).results.get? i = some none) ∧
         (∀ r, f v i = Except.ok r →
            (Old.processInChunks items f oldOptions).results.get? i
              = some (some r))))
    ∧ (∃ pr : ProcessResult R,
       New.processInChunksByChunk items g options = CallResult.structured pr ∧
       pr.results.length
         = (chunk items (resolveOptions options).chunkSize).length ∧
       (∀ k c, (chunk items (resolveOptions options).chunkSize).get? k = some c →
         (∀ e, g c k = Except.error e → pr.results.get? k = some none) ∧
         (∀ r, g c k = Except.ok r → pr.results.get? k = some (some r))))
    ∧ ((Old.processInChunksByChunk items gOld oldOptions).results.length
         = (chunk items (Old.resolveOptions oldOptions).chunkSize).length ∧
       (∀ k c, (chunk items (Old.resolveOptions oldOptions).chunkSize).get? k
           = some c →
         (∀ e, gOld c ((Old.resolveOptions oldOptions).chunkSize * k)
            = Except.error e →
            (Old.processInChunksByChunk items gOld oldOptions).results.get? k
              = some none) ∧
         (∀ r, gOld c ((Old.resolveOptions oldOptions).chunkSize * k)
            = Except.ok r →
            (Old.processInChunksByChunk items gOld oldOptions).results.get? k
              = some (some r)))) := by
  have hres : (resolveOptions options).noThrow = true := by
    rw [resolveOptions_eq]
    show options.noThrow.getD false = true
    rw [h]
    rfl
  refine ⟨?_, ?_, ?_, ?_⟩
  · rw [New.processInChunks, New.processInChunksFull_collect items f options hres]
    by_cases hnil : dedupFirst (chunkErrList f 0 items) = []
    · rw [if_pos hnil]
      exact ⟨ProcessResult.ok (chunkSlots f 0 items), rfl,
        chunkSlots_length f items 0, fun i v hv => chunkSlots_spec f items i v hv⟩
    · rw [if_neg hnil]
      exact ⟨ProcessResult.err (chunkSlots f 0 items)
          (dedupFirst (chunkErrList f 0 items)), rfl,
        chunkSlots_length f items 0, fun i v hv => chunkSlots_spec f items i v hv⟩
  · rw [Old.processInChunks, Old.processInChunksFull_eq]
    by_cases hnil : dedupFirst (chunkErrList f 0 items) = []
    · rw [if_pos hnil]
      exact ⟨chunkSlots_length f items 0,
        fun i v hv => chunkSlots_spec f items i v hv⟩
    · rw [if_neg hnil]
      exact ⟨chunkSlots_length f items 0,
        fun i v hv => chunkSlots_spec f items i v hv⟩
  · rw [New.processInChunksByChunk,
      New.processInChunksByChunkFull_collect items g options hres]
    by_cases hnil : dedupFirst (chunkErrList g 0
        (chunk items (resolveOptions options).chunkSize)) = []
    · rw [if_pos hnil]
      exact ⟨ProcessResult.ok (chunkSlots g 0
          (chunk items (resolveOptions options).chunkSize)), rfl,
        chunkSlots_length g _ 0,
        fun k c hc => chunkSlots_spec g _ k c hc⟩
    · rw [if_neg hnil]
      exact ⟨ProcessResult.err (chunkSlots g 0
            (chunk items (resolveOptions options).chunkSize))
          (dedupFirst (chunkErrList g 0
            (chunk items (resolveOptions options).chunkSize))), rfl,
        chunkSlots_length g _ 0,
        fun k c hc => chunkSlots_spec g _ k c hc⟩
  · rw [Old.processInChunksByChunk, Old.processInChunksByChunkFull_eq]
    by_cases hnil : dedupFirst (stridedErrList gOld
        (Old.resolveOptions oldOptions).chunkSize 0
        (chunk items (Old.resolveOptions oldOptions).chunkSize)) = []
    · rw [if_pos hnil]
      exact ⟨stridedSlots_length gOld _ _ 0,
        fun k c hc => stridedSlots_spec gOld _ _ k c hc⟩
    · rw [if_neg hnil]
      exact ⟨stridedSlots_length gOld _ _ 0,
        fun k c hc => stridedSlots_spec gOld _ _ k c hc⟩

/-- Claim C1 witness: the collect-mode result shape evaluated at a concrete
input with one failing item. -/
theorem claim1_witness :
    (∃ pr : ProcessResult Nat,
       New.processInChunks [1, 2, 3]
         (fun x _ => if x = 2 then Except.error "b" else Except.ok x)
         { chunkSize := none, throttleSeconds := none, noThrow := some true }
         = CallResult.structured pr ∧
       pr.results.length = 3 ∧
       pr.results.get? 1 = some none ∧
       pr.results.get? 0 = some (some 1)) := by
  obtain ⟨pr, hpr, hlen, hget⟩ :=
    (claim1_collect_result_shape [1, 2, 3]
      (fun x _ => if x = 2 then Except.error "b" else Except.ok x)
      (fun c _ => Except.ok c.length) (fun c _ => Except.ok c.length)
      { chunkSize := none, throttleSeconds := none, noThrow := some true }
      { chunkSize := none, throttleSeconds := none } rfl).1
  refine ⟨pr, hpr, hlen, ?_, ?_⟩
  · exact (hget 1 2 rfl).1 "b" rfl
  · exact (hget 0 1 rfl).2 1 rfl

/-- Fail-fast item-mode: the first failing unit's message is thrown verbatim. -/
theorem ffThrows_item {T R : Type} (items : List T)
    (f : T → Nat → Except String R) (options : ChunkingOptions)
    (h : (resolveOptions options).noThrow = false)
    (j : Nat) (v : T) (e : String)
    (hv : items.get? j = some v) (hf : f v j = Except.error e)
    (hok : ∀ i w, i < j → items.get? i = some w → errOf (f w i) = none) :
    New.processInChunks items f options = CallResult.thrown e := by
  have hff := firstFailure_zero_of_spec f items j e v hv hf hok
  rw [New.processInChunks,
    New.processInChunksFull_ff_some items f options j e h hff]

/-- Fail-fast item-mode never returns a structured result. -/
theorem ffNeverStructured_item {T R : Type} (items : List T)
    (f : T → Nat → Except String R) (options : ChunkingOptions)
    (h : (resolveOptions options).noThrow = false) :
    ∀ pr, New.processInChunks items f options ≠ CallResult.structured pr := by
  intro pr
  cases hff : firstFailure f 0 items with
  | none =>
      rw [New.processInChunks,
        New.processInChunksFull_ff_none items f options h hff]
      simp
  | some p =>
      rw [New.processInChunks,
        New.processInChunksFull_ff_some items f options p.1 p.2 h (by rw [hff])]
      simp

/-- Fail-fast chunk-mode: the first failing chunk's message is thrown
verbatim. -/
theorem ffThrows_byChunk {T R : Type} (items : List T)
    (g : List T → Nat → Except String R) (options : ChunkingOptions)
    (h : (resolveOptions options).noThrow = false)
    (k : Nat) (c : List T) (e : String)
    (hc : (chunk items (resolveOptions options).chunkSize).get? k = some c)
    (hg : g c k = Except.error e)
    (hok : ∀ i d, i < k →
      (chunk items (resolveOptions options).chunkSize).get? i = some d →
      errOf (g d i) = none) :
    New.processInChunksByChunk items g options = CallResult.thrown e := by
  have hff := firstFailure_zero_of_spec g
    (chunk items (resolveOptions options).chunkSize) k e c hc hg hok
  rw [New.processInChunksByChunk,
    New.processInChunksByChunkFull_ff_some items g options k e h hff]

/-- Fail-fast chunk-mode never returns a structured result. -/
theorem ffNeverStructured_byChunk {T R : Type} (items : List T)
    (g : List T → Nat → Except String R) (options : ChunkingOptions)
    (h : (resolveOptions options).noThrow = false) :
    ∀ pr, New.processInChunksByChunk items g options
      ≠ CallResult.structured pr := by
  intro pr
  cases hff : firstFailure g 0 (chunk items (resolveOptions options).chunkSize) with
  | none =>
      rw [New.processInChunksByChunk,
        New.processInChunksByChunkFull_ff_none items g options h hff]
      simp
  | some p =>
      rw [New.processInChunksByChunk,
        New.processInChunksByChunkFull_ff_some items g options p.1 p.2 h
          (by rw [hff])]
      simp

/-- Claim C2: in fail-fast mode (resolved `noThrow = false`) the first unit
failure encountered propagates immediately as a thrown error carrying the
original failure's message verbatim, the call never returns a structured
error result, and this holds for the item-mode and the chunk-mode processor of
the newer revision alike (results of the aborted call are discarded: the thrown
outcome carries no results). -/
theorem claim2_failfast_throws {T R : Type} (items : List T)
    (f : T → Nat → Except String R)
    (g : List T → Nat → Except String R) (options : ChunkingOptions)
    (h : (resolveOptions options).noThrow = false) :
    (∀ (j : Nat) (v : T) (e : String),
       items.get? j = some v → f v j = Except.error e →
       (∀ i w, i < j → items.get? i = some w → errOf (f w i) = none) →
       New.processInChunks items f options = CallResult.thrown e)
    ∧ (∀ pr, New.processInChunks items f options ≠ CallResult.structured pr)
    ∧ (∀ (k : Nat) (c : List T) (e : String),
       (chunk items (resolveOptions options).chunkSize).get? k = some c →
       g c k = Except.error e →
       (∀ i d, i < k →
          (chunk items (resolveOptions options).chunkSize).get? i = some d →
          errOf (g d i) = none) →
       New.processInChunksByChunk items g options = CallResult.thrown e)
    ∧ (∀ pr, New.processInChunksByChunk items g options
        ≠ CallResult.structured pr) := by
  exact ⟨fun j v e hv hf hok => ffThrows_item items f options h j v e hv hf hok,
    ffNeverStructured_item items f options h,
    fun k c e hc hg hok => ffThrows_byChunk items g options h k c e hc hg hok,
    ffNeverStructured_byChunk items g options h⟩

/-- Claim C2 witness: a concrete fail-fast call throws the failing item's
message verbatim. -/
theorem claim2_witness :
    New.processInChunks [1, 2, 3]
      (fun x _ => if x = 2 then Except.error "boom" else Except.ok x)
      { chunkSize := none, throttleSeconds := none, noThrow := some false }
      = CallResult.thrown "boom" := by
  refine (claim2_failfast_throws [1, 2, 3]
    (fun x _ => if x = 2 then Except.error "boom" else Except.ok x)
    (fun c _ => Except.ok 0)
    { chunkSize := none, throttleSeconds := none, noThrow := some false }
    (by rw [resolveOptions_eq]; rfl)).1 1 2 "boom" rfl rfl ?_
  intro i w hi hw
  match i with
  | 0 =>
      simp only [List.get?] at hw
      cases hw
      rfl
  | Nat.succ k => omega

/-- Claim C3: the configuration defaults are `chunkSize 500`,
`throttleSeconds 0` and fail-fast error mode (`noThrow false` in the newer
revision; the older revision has the same `chunkSize`/`throttleSeconds`
defaults); in particular a newer-revision call that omits the error-mode
option throws on a unit failure instead of returning a structured result. -/
theorem claim3_defaults {T R : Type} (items : List T)
    (f : T → Nat → Except String R) (options : ChunkingOptions)
    (h : options.noThrow = none) :
    resolveOptions { chunkSize := none, throttleSeconds := none, noThrow := none }
      = { chunkSize := 500, throttleSeconds := 0, noThrow := false }
    ∧ Old.resolveOptions { chunkSize := none, throttleSeconds := none }
      = { chunkSize := 500, throttleSeconds := 0 }
    ∧ (∀ (j : Nat) (v : T) (e : String),
        items.get? j = some v → f v j = Except.error e →
        (∀ i w, i < j → items.get? i = some w → errOf (f w i) = none) →
        New.processInChunks items f options = CallResult.thrown e)
    ∧ (∀ pr, New.processInChunks items f options ≠ CallResult.structured pr) := by
  have hres : (resolveOptions options).noThrow = false := by
    rw [resolveOptions_eq]
    show options.noThrow.getD false = false
    rw [h]
    rfl
  refine ⟨rfl, rfl, ?_, ?_⟩
  · intro j v e hv hf hok
    exact ffThrows_item items f options hres j v e hv hf hok
  · exact ffNeverStructured_item items f options hres

/-- Claim C3 witness: with the error-mode option omitted entirely, a failing
unit makes the call throw. -/
theorem claim3_witness :
    New.processInChunks [1, 2, 3]
      (fun x _ => if x = 2 then Except.error "boom" else Except.ok x)
      { chunkSize := none, throttleSeconds := none, noThrow := none }
      = CallResult.thrown "boom" := by
  refine (claim3_defaults [1, 2, 3]
    (fun x _ => if x = 2 then Except.error "boom" else Except.ok x)
    { chunkSize := none, throttleSeconds := none, noThrow := none }
    rfl).2.2.1 1 2 "boom" rfl rfl ?_
  intro i w hi hw
  match i with
  | 0 =>
      simp only [List.get?] at hw
      cases hw
      rfl
  | Nat.succ k => omega

/-- Claim C4 counterexample: in the older revision's chunk-mode processor, the
index passed to the callback is not the 0-based chunk position: on
`[1, 2, 3, 4]` with `chunkSize 2` the callbacks receive indices `[0, 2]`
(the chunks' item offsets), not `[0, 1]`. -/
theorem claim4_counterexample :
    (Old.processInChunksByChunkCalls [1, 2, 3, 4]
        (fun c _ => (Except.ok c.length : Except String Nat))
        { chunkSize := some 2, throttleSeconds := none }).map Prod.fst
      ≠ [0, 1] := by
  have hcalls : Old.processInChunksByChunkCalls [1, 2, 3, 4]
      (fun c _ => (Except.ok c.length : Except String Nat))
      { chunkSize := some 2, throttleSeconds := none }
      = [(0, [1, 2]), (2, [3, 4])] := by
    rw [Old.processInChunksByChunkCalls_eq, Old.resolveOptions_getD]
    norm_num
    rw [chunk_cons_eq]
    norm_num
    rw [chunk_cons_eq]
    norm_num
    rw [chunk_nil]
    rfl
  rw [hcalls]
  decide

/-- Claim C4 amended: in chunk-mode the newer revision passes the 0-based
position of the chunk among all chunks to the callback (for every collection
and configuration, in both error modes), while the older revision instead
passes the chunk's starting item offset `chunkIndex * chunkSize`. -/
theorem claim4_chunk_index {T R : Type} (items : List T)
    (g gOld : List T → Nat → Except String R) (options : ChunkingOptions)
    (oldOptions : Old.ChunkingOptions) :
    (New.processInChunksByChunkCalls items g options).map Prod.fst
      = List.range (New.processInChunksByChunkCalls items g options).length
    ∧ (Old.processInChunksByChunkCalls items gOld oldOptions).map Prod.fst
      = (List.range
          (chunk items (Old.resolveOptions oldOptions).chunkSize).length).map
          (fun k => (Old.resolveOptions oldOptions).chunkSize * k) := by
  constructor
  · cases hnt : (resolveOptions options).noThrow with
    | true =>
        have := New.processInChunksByChunkFull_collect items g options hnt
        rw [New.processInChunksByChunkCalls, this]
        by_cases hnil : dedupFirst (chunkErrList g 0
            (chunk items (resolveOptions options).chunkSize)) = []
        · rw [if_pos hnil]
          rw [show ((CallResult.structured (ProcessResult.ok
              (chunkSlots g 0 (chunk items (resolveOptions options).chunkSize))),
              chunkItemCalls 0 (chunk items (resolveOptions options).chunkSize)) :
              CallResult R × List (Nat × List T)).2
            = chunkItemCalls 0 (chunk items (resolveOptions options).chunkSize)
            from rfl]
          rw [chunkItemCalls_zero_map_fst, chunkItemCalls_length]
        · rw [if_neg hnil]
          rw [show ((CallResult.structured (ProcessResult.err
              (chunkSlots g 0 (chunk items (resolveOptions options).chunkSize))
              (dedupFirst (chunkErrList g 0
                (chunk items (resolveOptions options).chunkSize)))),
              chunkItemCalls 0 (chunk items (resolveOptions options).chunkSize)) :
              CallResult R × List (Nat × List T)).2
            = chunkItemCalls 0 (chunk items (resolveOptions options).chunkSize)
            from rfl]
          rw [chunkItemCalls_zero_map_fst, chunkItemCalls_length]
    | false =>
        cases hff : firstFailure g 0 (chunk items (resolveOptions options).chunkSize) with
        | none =>
            rw [New.processInChunksByChunkCalls,
              New.processInChunksByChunkFull_ff_none items g options hnt hff]
            rw [show ((CallResult.plain
                (chunkSlots g 0 (chunk items (resolveOptions options).chunkSize)),
                chunkItemCalls 0 (chunk items (resolveOptions options).chunkSize)) :
                CallResult R × List (Nat × List T)).2
              = chunkItemCalls 0 (chunk items (resolveOptions options).chunkSize)
              from rfl]
            rw [chunkItemCalls_zero_map_fst, chunkItemCalls_length]
        | some p =>
            rw [New.processInChunksByChunkCalls,
              New.processInChunksByChunkFull_ff_some items g options p.1 p.2 hnt
                (by rw [hff])]
            rw [show ((CallResult.thrown p.2,
                chunkItemCalls 0
                  ((chunk items (resolveOptions options).chunkSize).take (p.1 + 1))) :
                CallResult R × List (Nat × List T)).2
              = chunkItemCalls 0
                  ((chunk items (resolveOptions options).chunkSize).take (p.1 + 1))
              from rfl]
            rw [chunkItemCalls_zero_map_fst, chunkItemCalls_length]
  · rw [Old.processInChunksByChunkCalls_eq, stridedCalls_map_fst]
    apply List.map_congr_left
    intro a _
    omega

theorem chunkItemCalls_take_eq {T : Type} (items : List T) (M : Nat) :
    chunkItemCalls 0 (items.take M)
      = ((List.range items.length).zip items).take M := by
  rw [chunkItemCalls_zero_eq_zip, zip_take_eq, List.take_range]
  congr 1
  rw [List.length_take]

/-- Claim C5: in item-mode the index passed to the callback for each invoked
item equals that item's position in the original flattened collection, 0-based
and monotonic across chunks: the invocation trace is a prefix of the position-
item enumeration of the input, and the full enumeration whenever collect mode
runs (newer revision with `noThrow: true`) or in the older revision. -/
theorem claim5_item_global_index {T R : Type} (items : List T)
    (f fOld : T → Nat → Except String R) (options : ChunkingOptions)
    (oldOptions : Old.ChunkingOptions) :
    (∃ m, m ≤ items.length ∧
       New.processInChunksCalls items f options
         = ((List.range items.length).zip items).take m)
    ∧ ((resolveOptions options).noThrow = true →
        New.processInChunksCalls items f options
          = (List.range items.length).zip items)
    ∧ Old.processInChunksCalls items fOld oldOptions
        = (List.range items.length).zip items := by
  have hzipfull : ((List.range items.length).zip items).take items.length
      = (List.range items.length).zip items := by
    apply List.take_of_length_le
    simp
  have hNewTrue : (resolveOptions options).noThrow = true →
      New.processInChunksCalls items f options
        = (List.range items.length).zip items := by
    intro hnt
    rw [New.processInChunksCalls,
      New.processInChunksFull_collect items f options hnt]
    show chunkItemCalls 0 items = _
    exact chunkItemCalls_zero_eq_zip items
  refine ⟨?_, hNewTrue, ?_⟩
  · cases hnt : (resolveOptions options).noThrow with
    | true =>
        exact ⟨items.length, Nat.le_refl _, by rw [hNewTrue hnt, hzipfull]⟩
    | false =>
        cases hff : firstFailure f 0 items with
        | none =>
            refine ⟨items.length, Nat.le_refl _, ?_⟩
            rw [New.processInChunksCalls,
              New.processInChunksFull_ff_none items f options hnt hff, hzipfull]
            show chunkItemCalls 0 items = _
            exact chunkItemCalls_zero_eq_zip items
        | some p =>
            refine ⟨min items.length
              ((p.1 / max (resolveOptions options).chunkSize 1 + 1)
                * max (resolveOptions options).chunkSize 1),
              Nat.min_le_left _ _, ?_⟩
            rw [New.processInChunksCalls,
              New.processInChunksFull_ff_some items f options p.1 p.2 hnt
                (by rw [hff])]
            show chunkItemCalls 0 (items.take _) = _
            exact chunkItemCalls_take_eq items _
  · rw [Old.processInChunksCalls, Old.processInChunksFull_eq]
    show chunkItemCalls 0 items = _
    exact chunkItemCalls_zero_eq_zip items

/-- Claim C5 witness: at a concrete collect-mode input the trace is exactly the
position-item enumeration, including a short last chunk. -/
theorem claim5_witness :
    New.processInChunksCalls [10, 20, 30]
      (fun v _ => (Except.ok v : Except String Nat))
      { chunkSize := some 2, throttleSeconds := none, noThrow := some true }
      = [(0, 10), (1, 20), (2, 30)] := by
  have h := (claim5_item_global_index [10, 20, 30]
    (fun v _ => (Except.ok v : Except String Nat))
    (fun v _ => Except.ok v)
    { chunkSize := some 2, throttleSeconds := none, noThrow := some true }
    { chunkSize := none, throttleSeconds := none }).2.1
    (by rw [resolveOptions_eq]; rfl)
  rw [h]
  rfl

/-- Claim C6: in collect mode the returned `errorMessages` is exactly the
first-occurrence deduplication of the failure messages in unit order — each
distinct message appears exactly once, membership agrees with the occurrence
list, and it is `undefined` (`none`) only in the error-free case.  Holds for
the newer revision with `noThrow: true` and for the older revision
unconditionally. -/
theorem claim6_error_dedup {T R : Type} (items : List T)
    (f : T → Nat → Except String R) (options : ChunkingOptions)
    (oldOptions : Old.ChunkingOptions) (h : options.noThrow = some true) :
    (∃ pr : ProcessResult R,
       New.processInChunks items f options = CallResult.structured pr ∧
       (chunkErrList f 0 items = [] → pr.errorMessages = none) ∧
       (chunkErrList f 0 items ≠ [] →
         pr.errorMessages = some (dedupFirst (chunkErrList f 0 items))))
    ∧ ((chunkErrList f 0 items = [] →
         (Old.processInChunks items f oldOptions).errorMessages = none) ∧
       (chunkErrList f 0 items ≠ [] →
         (Old.processInChunks items f oldOptions).errorMessages
           = some (dedupFirst (chunkErrList f 0 items))))
    ∧ (dedupFirst (chunkErrList f 0 items)).Nodup
    ∧ (∀ m, m ∈ dedupFirst (chunkErrList f 0 items)
          ↔ m ∈ chunkErrList f 0 items) := by
  have hres : (resolveOptions options).noThrow = true := by
    rw [resolveOptions_eq]
    show options.noThrow.getD false = true
    rw [h]
    rfl
  refine ⟨?_, ?_, dedupFirst_nodup _, mem_dedupFirst _⟩
  · rw [New.processInChunks, New.processInChunksFull_collect items f options hres]
    by_cases hnil : dedupFirst (chunkErrList f 0 items) = []
    · rw [if_pos hnil]
      refine ⟨ProcessResult.ok (chunkSlots f 0 items), rfl, fun _ => rfl, ?_⟩
      intro hocc
      exact absurd ((dedupFirst_eq_nil_iff _).mp hnil) hocc
    · rw [if_neg hnil]
      refine ⟨ProcessResult.err (chunkSlots f 0 items)
        (dedupFirst (chunkErrList f 0 items)), rfl, ?_, fun _ => rfl⟩
      intro hocc
      exact absurd ((dedupFirst_eq_nil_iff _).mpr hocc) hnil
  · rw [Old.processInChunks, Old.processInChunksFull_eq]
    by_cases hnil : dedupFirst (chunkErrList f 0 items) = []
    · rw [if_pos hnil]
      refine ⟨fun _ => rfl, ?_⟩
      intro hocc
      exact absurd ((dedupFirst_eq_nil_iff _).mp hnil) hocc
    · rw [if_neg hnil]
      refine ⟨?_, fun _ => rfl⟩
      intro hocc
      exact absurd ((dedupFirst_eq_nil_iff _).mpr hocc) hnil

/-- Claim C6 witness: a repeated message is recorded once, in first-occurrence
order, at a concrete input. -/
theorem claim6_witness :
    ∃ pr : ProcessResult Nat,
      New.processInChunks [1, 2, 3, 4]
        (fun x _ => if x % 2 = 0 then Except.error "dup"
          else Except.error "first")
        { chunkSize := none, throttleSeconds := none, noThrow := some true }
        = CallResult.structured pr ∧
      pr.errorMessages = some ["first", "dup"] := by
  obtain ⟨pr, hpr, -, hsome⟩ := (claim6_error_dedup [1, 2, 3, 4]
    (fun x _ => if x % 2 = 0 then Except.error "dup" else Except.error "first")
    { chunkSize := none, throttleSeconds := none, noThrow := some true }
    { chunkSize := none, throttleSeconds := none } rfl).1
  refine ⟨pr, hpr, ?_⟩
  rw [hsome (by decide)]
  rfl

/-- Claim C7: with `throttleSeconds = s > 0`, the inter-chunk delay and the
chunk's processing run concurrently, not sequentially: processing starts at the
beginning of the iteration (offset 0, not gated by the delay), the loop
advances only when both the delay and the processing have completed (span
`max d s`, which is at least each of the two and, for `0 < d`, strictly less
than the sequential `d + s`), and consecutive chunk starts are spaced at least
`s` apart. -/
theorem claim7_throttle_concurrent (s d : ℚ) (hs : 0 < s) :
    iterationAdvance s d = max d s
    ∧ processingStartOffset s = 0
    ∧ s ≤ iterationAdvance s d
    ∧ d ≤ iterationAdvance s d
    ∧ (0 < d → iterationAdvance s d < d + s)
    ∧ (∀ (ds : List ℚ) (k : Nat) (hk : k < ds.length),
        chunkStart s ds (k + 1)
          = chunkStart s ds k + iterationAdvance s (ds.get ⟨k, hk⟩)
        ∧ chunkStart s ds k + s ≤ chunkStart s ds (k + 1)) := by
  have hadv : iterationAdvance s d = max d s := by
    rw [iterationAdvance, if_pos hs]
  refine ⟨hadv, rfl, ?_, ?_, ?_, ?_⟩
  · rw [hadv]; exact le_max_right d s
  · rw [hadv]; exact le_max_left d s
  · intro hd
    rw [hadv]
    apply max_lt
    · exact lt_add_of_pos_right d hs
    · exact lt_add_of_pos_left s hd
  · intro ds k hk
    have hstep : chunkStart s ds (k + 1)
        = chunkStart s ds k + iterationAdvance s (ds.get ⟨k, hk⟩) := by
      rw [chunkStart, chunkStart, List.take_succ]
      rw [List.getElem?_eq_getElem hk]
      simp only [Option.toList_some, List.map_append, List.map_cons,
        List.map_nil, List.sum_append, List.sum_cons, List.sum_nil]
      rw [List.get_eq_getElem]
      ring
    refine ⟨hstep, ?_⟩
    rw [hstep]
    have : s ≤ iterationAdvance s (ds.get ⟨k, hk⟩) := by
      rw [iterationAdvance, if_pos hs]
      exact le_max_right _ _
    linarith

/-- Claim C7 witness: the timed model evaluated at `s = 1`, `d = 2`. -/
theorem claim7_witness :
    iterationAdvance 1 2 = max 2 1 ∧ (1 : ℚ) ≤ iterationAdvance 1 2
      ∧ iterationAdvance 1 2 < 2 + 1 := by
  have h := claim7_throttle_concurrent 1 2 (by norm_num)
  exact ⟨h.1, h.2.2.1, h.2.2.2.2.1 (by norm_num)⟩

/-- Claim C8: in collect mode `hasErrors` is true exactly when at least one
unit's callback threw — equivalently, exactly when the occurrence list of
failure messages (and hence `errorMessages`) is non-empty — and a callback that
successfully returns `undefined` does not set `hasErrors`, even though at the
JS value level its slot (`jsSlot`) is indistinguishable from a failure hole
when the result type itself contains `undefined`. -/
theorem claim8_hasErrors_iff {T R : Type} (items : List T)
    (f : T → Nat → Except String R) (options : ChunkingOptions)
    (oldOptions : Old.ChunkingOptions) (h : options.noThrow = some true) :
    (∃ pr : ProcessResult R,
       New.processInChunks items f options = CallResult.structured pr
       ∧ (pr.hasErrors = true ↔ chunkErrList f 0 items ≠ [])
       ∧ (pr.hasErrors = true ↔
           ∃ i v, items.get? i = some v ∧ errOf (f v i) ≠ none)
       ∧ (pr.hasErrors = true ↔ ∃ ms, pr.errorMessages = some ms ∧ ms ≠ []))
    ∧ ((Old.processInChunks items f oldOptions).hasErrors = true
         ↔ chunkErrList f 0 items ≠ [])
    ∧ New.processInChunks [()] (fun _ _ => Except.ok (none : Option Unit))
        { chunkSize := none, throttleSeconds := none, noThrow := some true }
        = CallResult.structured (ProcessResult.ok [some none])
    ∧ jsSlot (some (none : Option Unit)) = jsSlot none := by
  have hres : (resolveOptions options).noThrow = true := by
    rw [resolveOptions_eq]
    show options.noThrow.getD false = true
    rw [h]
    rfl
  refine ⟨?_, ?_, ?_, rfl⟩
  · rw [New.processInChunks, New.processInChunksFull_collect items f options hres]
    by_cases hnil : dedupFirst (chunkErrList f 0 items) = []
    · rw [if_pos hnil]
      have hocc : chunkErrList f 0 items = [] := (dedupFirst_eq_nil_iff _).mp hnil
      refine ⟨ProcessResult.ok (chunkSlots f 0 items), rfl, ?_, ?_, ?_⟩
      · simp [ProcessResult.hasErrors, hocc]
      · constructor
        · intro hfalse
          exact absurd hfalse (by simp [ProcessResult.hasErrors])
        · intro hex
          exact absurd hocc ((chunkErrList_ne_nil_iff f items).mpr hex)
      · constructor
        · intro hfalse
          exact absurd hfalse (by simp [ProcessResult.hasErrors])
        · rintro ⟨ms, hms, -⟩
          exact absurd hms (by simp [ProcessResult.errorMessages])
    · rw [if_neg hnil]
      have hocc : chunkErrList f 0 items ≠ [] :=
        fun hc => hnil ((dedupFirst_eq_nil_iff _).mpr hc)
      refine ⟨ProcessResult.err (chunkSlots f 0 items)
        (dedupFirst (chunkErrList f 0 items)), rfl, ?_, ?_, ?_⟩
      · exact iff_of_true rfl hocc
      · exact iff_of_true rfl ((chunkErrList_ne_nil_iff f items).mp hocc)
      · exact iff_of_true rfl
          ⟨dedupFirst (chunkErrList f 0 items), rfl, hnil⟩
  · rw [Old.processInChunks, Old.processInChunksFull_eq]
    by_cases hnil : dedupFirst (chunkErrList f 0 items) = []
    · rw [if_pos hnil]
      have hocc : chunkErrList f 0 items = [] := (dedupFirst_eq_nil_iff _).mp hnil
      simp [ProcessResult.hasErrors, hocc]
    · rw [if_neg hnil]
      have hocc : chunkErrList f 0 items ≠ [] :=
        fun hc => hnil ((dedupFirst_eq_nil_iff _).mpr hc)
      exact iff_of_true rfl hocc
  · rw [New.processInChunks,
      New.processInChunksFull_collect _ _ _ (by rfl)]
    rfl

/-- Claim C8 witness: at a concrete input with one failing unit, the structured
result's `hasErrors` is true. -/
theorem claim8_witness :
    ∃ pr : ProcessResult Nat,
      New.processInChunks [1, 2]
        (fun x _ => if x = 2 then Except.error "E" else Except.ok x)
        { chunkSize := none, throttleSeconds := none, noThrow := some true }
        = CallResult.structured pr ∧ pr.hasErrors = true := by
  obtain ⟨pr, hpr, hiff, -, -⟩ := (claim8_hasErrors_iff [1, 2]
    (fun x _ => if x = 2 then Except.error "E" else Except.ok x)
    { chunkSize := none, throttleSeconds := none, noThrow := some true }
    { chunkSize := none, throttleSeconds := none } rfl).1
  exact ⟨pr, hpr, hiff.mpr (by decide)⟩

/-- Claim C9: neither entry point mutates the caller's options object — the
merge `Object.assign({}, optionsDefaults, options)` writes a freshly created
empty object, so the caller's object holds exactly its original fields after
the call, and the resolved configuration is the defaults overridden field-wise
by the caller's present fields.  Holds for the newer and the older revision. -/
theorem claim9_options_unchanged :
    (∀ o : ChunkingOptions,
       optionsAfterCall o = o
       ∧ mergedOptions o
           = { chunkSize := some (o.chunkSize.getD 500)
               throttleSeconds := some (o.throttleSeconds.getD 0)
               noThrow := some (o.noThrow.getD false) }
       ∧ resolveOptions o
           = { chunkSize := o.chunkSize.getD 500
               throttleSeconds := o.throttleSeconds.getD 0
               noThrow := o.noThrow.getD false })
    ∧ (∀ o : Old.ChunkingOptions,
       Old.optionsAfterCall o = o
       ∧ Old.mergedOptions o
           = { chunkSize := some (o.chunkSize.getD 500)
               throttleSeconds := some (o.throttleSeconds.getD 0) }
       ∧ Old.resolveOptions o
           = { chunkSize := o.chunkSize.getD 500
               throttleSeconds := o.throttleSeconds.getD 0 }) := by
  constructor
  · intro o
    obtain ⟨a, b, c⟩ := o
    cases a <;> cases b <;> cases c <;> exact ⟨rfl, rfl, rfl⟩
  · intro o
    obtain ⟨a, b⟩ := o
    cases a <;> cases b <;> exact ⟨rfl, rfl, rfl⟩

/-- Claim C10: in fail-fast mode of the newer revision, once a unit's callback
has failed, no callback of any later chunk is ever invoked: the item-mode
invocation trace stops at the end of the chunk containing the first failure
(every invoked global index lies in a chunk no later than the failing one), and
the chunk-mode trace stops at the first failing chunk. -/
theorem claim10_no_later_chunk {T R : Type} (items : List T)
    (f : T → Nat → Except String R)
    (g : List T → Nat → Except String R) (options : ChunkingOptions)
    (h : (resolveOptions options).noThrow = false) :
    (∀ (j : Nat) (v : T) (e : String),
       items.get? j = some v → f v j = Except.error e →
       (∀ i w, i < j → items.get? i = some w → errOf (f w i) = none) →
       New.processInChunksCalls items f options
         = chunkItemCalls 0
             (items.take (min items.length
               ((j / max (resolveOptions options).chunkSize 1 + 1)
                 * max (resolveOptions options).chunkSize 1)))
       ∧ ∀ p ∈ New.processInChunksCalls items f options,
           p.1 / max (resolveOptions options).chunkSize 1
             ≤ j / max (resolveOptions options).chunkSize 1)
    ∧ (∀ (k : Nat) (c : List T) (e : String),
       (chunk items (resolveOptions options).chunkSize).get? k = some c →
       g c k = Except.error e →
       (∀ i d, i < k →
         (chunk items (resolveOptions options).chunkSize).get? i = some d →
         errOf (g d i) = none) →
       New.processInChunksByChunkCalls items g options
         = chunkItemCalls 0
             ((chunk items (resolveOptions options).chunkSize).take (k + 1))
       ∧ ∀ p ∈ New.processInChunksByChunkCalls items g options, p.1 ≤ k) := by
  have hs' : 0 < max (resolveOptions options).chunkSize 1 :=
    Nat.lt_of_lt_of_le Nat.zero_lt_one (le_max_right _ 1)
  constructor
  · intro j v e hv hf hok
    have hff := firstFailure_zero_of_spec f items j e v hv hf hok
    have hcalls : New.processInChunksCalls items f options
        = chunkItemCalls 0
            (items.take (min items.length
              ((j / max (resolveOptions options).chunkSize 1 + 1)
                * max (resolveOptions options).chunkSize 1))) := by
      rw [New.processInChunksCalls,
        New.processInChunksFull_ff_some items f options j e h hff]
    refine ⟨hcalls, ?_⟩
    intro p hp
    rw [hcalls] at hp
    have hb := mem_chunkItemCalls_bound _ 0 p hp
    have hlen : (items.take (min items.length
        ((j / max (resolveOptions options).chunkSize 1 + 1)
          * max (resolveOptions options).chunkSize 1))).length
        ≤ (j / max (resolveOptions options).chunkSize 1 + 1)
          * max (resolveOptions options).chunkSize 1 := by
      rw [List.length_take]
      omega
    have hlt : p.1 < (j / max (resolveOptions options).chunkSize 1 + 1)
        * max (resolveOptions options).chunkSize 1 := by
      omega
    have := (Nat.div_lt_iff_lt_mul hs').mpr hlt
    omega
  · intro k c e hc hg hok
    have hff := firstFailure_zero_of_spec g
      (chunk items (resolveOptions options).chunkSize) k e c hc hg hok
    have hcalls : New.processInChunksByChunkCalls items g options
        = chunkItemCalls 0
            ((chunk items (resolveOptions options).chunkSize).take (k + 1)) := by
      rw [New.processInChunksByChunkCalls,
        New.processInChunksByChunkFull_ff_some items g options k e h hff]
    refine ⟨hcalls, ?_⟩
    intro p hp
    rw [hcalls] at hp
    have hb := mem_chunkItemCalls_bound _ 0 p hp
    have hlen : ((chunk items (resolveOptions options).chunkSize).take (k + 1)).length
        ≤ k + 1 := by
      rw [List.length_take]
      omega
    omega

/-- Claim C10 witness: with six items, `chunkSize 2`, and the first failure at
global index 2 (second chunk), the trace covers only the first two chunks;
chunk three's items are never passed to the callback. -/
theorem claim10_witness :
    New.processInChunksCalls [1, 2, 3, 4, 5, 6]
      (fun x _ => if x = 3 then Except.error "E" else Except.ok x)
      { chunkSize := some 2, throttleSeconds := none, noThrow := none }
      = [(0, 1), (1, 2), (2, 3), (3, 4)] := by
  have h := ((claim10_no_later_chunk [1, 2, 3, 4, 5, 6]
    (fun x _ => if x = 3 then Except.error "E" else Except.ok x)
    (fun c _ => Except.ok 0)
    { chunkSize := some 2, throttleSeconds := none, noThrow := none }
    (by rw [resolveOptions_eq]; rfl)).1 2 3 "E" rfl (by simp) ?_).1
  · rw [h]
    rfl
  · intro i w hi hw
    match i with
    | 0 =>
        simp only [List.get?] at hw
        cases hw
        rfl
    | 1 =>
        simp only [List.get?] at hw
        cases hw
        rfl
    | Nat.succ (Nat.succ m) => omega
